import Mathlib

set_option maxRecDepth 4000

/- The Batteries rational-number kernel operations are `@[irreducible]`,
which blocks `decide`-based evaluation of concrete pipeline runs; restore the
default reducibility locally so witnesses can be checked by computation. -/
attribute [local semireducible] Rat.add Rat.mul Rat.sub Rat.inv

/-!
Shallow embedding of the analytics core of the `superappls` repository
(`src/utils/dataProcessor.ts` and the deduplicating normalizer variant in
`src/unnamed/part_002`), together with proofs of the specification claims.

Modelling conventions:
* JavaScript numbers are modelled as exact rationals (`ℚ`); `Math.round`,
  `Math.ceil`, `Math.sqrt` are modelled by their exact real/rational
  analogues; a `NaN` produced by a failed numeric coercion is modelled as
  `none : Option ℚ`.
* JavaScript strings are Lean `String`s; the JS string operations the code
  uses (`toLowerCase`, `includes`, `trim`, lexicographic `<`) are modelled
  by structurally recursive functions on the character list.
* `new Date(string)` is modelled for the strict `YYYY-MM-DD` ISO subset (the
  only date format the pipeline itself produces); any other string is an
  invalid date (`none`, modelling a `NaN` timestamp).
* `Date.prototype.toISOString().slice(0, 10)` is modelled by rendering the
  civil date of the floored day number (valid for the in-range,
  four-digit-year dates the analytics operate on).
* `Array.prototype.sort(cmp)` (stable since ES2019) is modelled by
  `List.insertionSort` with the ordering relation induced by the comparator.
-/

/-- A dynamic JavaScript value as it appears in a raw spreadsheet row:
a number, a string, or an absent value (`null`/`undefined`). -/
inductive JSVal where
  | num (q : ℚ)
  | str (s : String)
  | null
deriving DecidableEq

/-- JavaScript truthiness of a raw cell value: `0`, `""` and `null` are
falsy, everything else is truthy. -/
def JSVal.truthy : JSVal → Prop
  | .num q => q ≠ 0
  | .str s => s ≠ ""
  | .null => False

instance : DecidablePred JSVal.truthy := fun v =>
  match v with
  | .num q => inferInstanceAs (Decidable (q ≠ 0))
  | .str s => inferInstanceAs (Decidable (s ≠ ""))
  | .null => inferInstanceAs (Decidable False)

/-- A raw input row: an association list from column names to dynamic values
(modelling a parsed spreadsheet row object, whose keys are unique). -/
def RawRow := List (String × JSVal)

/-- ASCII lower-casing of one character (model of the effect of
`String.prototype.toLowerCase` on the characters the pipeline matches on;
non-ASCII characters, in particular the CJK keywords, are unaffected). -/
def charLower (c : Char) : Char :=
  if 'A' ≤ c ∧ c ≤ 'Z' then Char.ofNat (c.toNat + 32) else c

/-- Model of `s.toLowerCase()`. -/
def strLower (s : String) : String := ⟨s.data.map charLower⟩

/-- Model of `s.trim()`: strip whitespace from both ends. -/
def trimWs (s : String) : String :=
  ⟨(((s.data.dropWhile Char.isWhitespace).reverse).dropWhile Char.isWhitespace).reverse⟩

/-- Substring test on character lists: does `hay` contain `needle`? -/
def subIn (needle : List Char) : List Char → Bool
  | [] => needle.isEmpty
  | c :: t => needle.isPrefixOf (c :: t) || subIn needle t

/-- Model of `hay.includes(pat)` on JavaScript strings. -/
def strIncludes (hay pat : String) : Bool := subIn pat.data hay.data

/-- Lexicographic strict comparison of character lists by code point. -/
def charListLt : List Char → List Char → Bool
  | [], [] => false
  | [], _ :: _ => true
  | _ :: _, [] => false
  | a :: as, b :: bs => if a < b then true else if b < a then false else charListLt as bs

/-- Model of the JS `<` operator on strings (lexicographic; code-point and
UTF-16 code-unit order agree on the BMP strings this pipeline compares). -/
def strLtB (s t : String) : Bool := charListLt s.data t.data

/-- Numeric value of a digit character. -/
def digitVal (c : Char) : ℕ := c.toNat - 48

/-- Value of a digit string read as a natural number. -/
def digitsVal (cs : List Char) : ℕ := cs.foldl (fun acc c => acc * 10 + digitVal c) 0

/-- Model of the JS `Number(string)` coercion on a trimmed, nonempty,
sign-stripped body: decimal digits with an optional fractional part.
(Exponent/hex/Infinity forms are outside the model; the pipeline's numeric
cells are plain decimals.) Returns `none` for `NaN`. -/
def parseDecimalBody (cs : List Char) : Option ℚ :=
  let ip := cs.takeWhile Char.isDigit
  let rest := cs.dropWhile Char.isDigit
  match rest with
  | [] => if ip.isEmpty then none else some (digitsVal ip : ℚ)
  | '.' :: fp =>
    if fp.all Char.isDigit && !(ip.isEmpty && fp.isEmpty) then
      some ((digitsVal ip : ℚ) + (digitsVal fp : ℚ) / (10 : ℚ) ^ fp.length)
    else none
  | _ => none

/-- Model of `Number(v)` for a dynamic value; `none` models `NaN`.
`Number(null) = 0`, `Number("") = 0` (after trimming), numeric strings parse
as decimals, everything else is `NaN`. -/
def jsToNumber : JSVal → Option ℚ
  | .num q => some q
  | .null => some 0
  | .str s =>
    let t := trimWs s
    if t = "" then some 0
    else
      match t.data with
      | '-' :: body => (parseDecimalBody body).map (fun q => -q)
      | '+' :: body => parseDecimalBody body
      | body => parseDecimalBody body

/-- Model of `String(v)` for a dynamic value. -/
def jsString : JSVal → String
  | .str s => s
  | .num q => toString q
  | .null => "null"

/-- Model of JS `Math.round`: round half toward positive infinity. -/
def jsRound (q : ℚ) : ℤ := ⌊q + 1 / 2⌋

/-- Is the (proleptic Gregorian) year a leap year? -/
def isLeapYear (y : ℤ) : Bool := (y % 4 == 0 && y % 100 != 0) || y % 400 == 0

/-- Number of days in a month of a given year. -/
def daysInMonth (y m : ℤ) : ℤ :=
  if m = 2 then (if isLeapYear y then 29 else 28)
  else if m = 4 ∨ m = 6 ∨ m = 9 ∨ m = 11 then 30
  else 31

/-- Day number (days since 1970-01-01) of a civil date, by the standard
civil-calendar algorithm. -/
def daysFromCivil (y m d : ℤ) : ℤ :=
  let y2 := y - (if m ≤ 2 then 1 else 0)
  let era := Int.fdiv y2 400
  let yoe := y2 - era * 400
  let doy := Int.fdiv (153 * (if 2 < m then m - 3 else m + 9) + 2) 5 + d - 1
  let doe := yoe * 365 + Int.fdiv yoe 4 - Int.fdiv yoe 100 + doy
  era * 146097 + doe - 719468

/-- Civil date `(year, month, day)` of a day number (inverse of
`daysFromCivil`). -/
def civilFromDays (z : ℤ) : ℤ × ℤ × ℤ :=
  let z2 := z + 719468
  let era := Int.fdiv z2 146097
  let doe := z2 - era * 146097
  let yoe := Int.fdiv (doe - Int.fdiv doe 1460 + Int.fdiv doe 36524 - Int.fdiv doe 146096) 365
  let y := yoe + era * 400
  let doy := doe - (365 * yoe + Int.fdiv yoe 4 - Int.fdiv yoe 100)
  let mp := Int.fdiv (5 * doy + 2) 153
  let d := doy - Int.fdiv (153 * mp + 2) 5 + 1
  let m := if mp < 10 then mp + 3 else mp - 9
  (y + (if m ≤ 2 then 1 else 0), m, d)

/-- Zero-pad a nonnegative integer to two digits. -/
def pad2 (n : ℤ) : String := if n < 10 then "0" ++ toString n else toString n

/-- Zero-pad a nonnegative integer to four digits. -/
def pad4 (n : ℤ) : String :=
  if n < 10 then "000" ++ toString n
  else if n < 100 then "00" ++ toString n
  else if n < 1000 then "0" ++ toString n
  else toString n

/-- Model of `new Date(ms).toISOString().slice(0, 10)` for a timestamp that
is a whole number of days: render the civil date of the day number as
`YYYY-MM-DD` (in-range, four-digit-year dates). -/
def isoDateString (z : ℤ) : String :=
  let c := civilFromDays z
  pad4 c.1 ++ "-" ++ pad2 c.2.1 ++ "-" ++ pad2 c.2.2

/-- Model of `new Date(string).getTime()` (in whole days since the epoch)
for the strict `YYYY-MM-DD` ISO format; every other string yields an invalid
date (`none`, modelling `NaN`). -/
def parseIsoChars : List Char → Option ℤ
  | [y1, y2, y3, y4, h1, m1, m2, h2, d1, d2] =>
    if (h1 = '-' ∧ h2 = '-') ∧
        ([y1, y2, y3, y4, m1, m2, d1, d2].all Char.isDigit) then
      let y : ℤ := digitsVal [y1, y2, y3, y4]
      let m : ℤ := digitsVal [m1, m2]
      let d : ℤ := digitsVal [d1, d2]
      if (1 ≤ m ∧ m ≤ 12) ∧ (1 ≤ d ∧ d ≤ daysInMonth y m) then
        some (daysFromCivil y m d)
      else none
    else none
  | _ => none

/-- Model of `new Date(string).getTime()` (in whole days since the epoch)
for the strict `YYYY-MM-DD` ISO format, via the character-level parser;
every other string yields an invalid date (`none`, modelling `NaN`). -/
def parseIsoDate (s : String) : Option ℤ := parseIsoChars s.data

/-! ## The canonical sales record and the normalizer
(`src/utils/dataProcessor.ts`, `normalizeData` and its helpers) -/

/-- The canonical sales record produced by the normalizer
(`SalesRecord` in `src/types.ts`, plus the `isGift` flag set by the
`dataProcessor.ts` variant). `Cost = none` models an `undefined` cost. -/
structure SalesRecord where
  Date : String
  Category : String
  Product : String
  Quantity : ℚ
  Amount : ℚ
  Cost : Option ℚ
  Brand : String
  isGift : Bool
deriving DecidableEq, Repr

/-- Brand keyword table of `detectBrand`: ordered `(keywords, label)` pairs;
the first pair one of whose keywords occurs in the lowercased product name
wins. -/
def brandTable : List (List String × String) :=
  [(["panasonic", "國際"], "Panasonic 國際"),
   (["lg"], "LG 樂金"),
   (["samsung", "三星"], "Samsung 三星"),
   (["sony", "索尼"], "Sony"),
   (["hitachi", "日立"], "Hitachi 日立"),
   (["toshiba", "東芝"], "Toshiba 東芝"),
   (["sharp", "夏普"], "Sharp 夏普"),
   (["teco", "東元"], "TECO 東元"),
   (["sampo", "聲寶"], "SAMPO 聲寶"),
   (["heran", "禾聯"], "HERAN 禾聯"),
   (["sanlux", "三洋"], "Sanlux 三洋"),
   (["sakura", "櫻花"], "Sakura 櫻花"),
   (["dyson"], "Dyson"),
   (["philips", "飛利浦"], "Philips"),
   (["tatung", "大同"], "Tatung 大同"),
   (["whirlpool", "惠而浦"], "Whirlpool"),
   (["daikin", "大金"], "Daikin 大金")]

/-- `detectBrand`: first matching keyword pair wins; no match yields the
"Other" label. -/
def detectBrand (productName : String) : String :=
  let normalized := strLower productName
  match brandTable.find? (fun e => e.1.any (fun k => strIncludes normalized k)) with
  | some e => e.2
  | none => "Other 其他"

/-- `detectGift`: amount exactly 0, or a "complimentary item" keyword in the
lowercased product name. -/
def detectGift (productName : String) (amount : ℚ) : Bool :=
  if amount = 0 then true
  else
    let giftKeywords : List String := ["贈", "贈品", "禮", "附贈", "加贈", "送", "免費"]
    let normalized := strLower productName
    giftKeywords.any (fun k => strIncludes normalized k)

/-- Column-name patterns for the date field. -/
def datePatterns : List String := ["date", "日期", "時間", "month", "day"]

/-- Column-name patterns for the category field. -/
def catPatterns : List String := ["category", "cat", "類別", "品類", "部門", "類型"]

/-- Column-name patterns for the product field. -/
def prodPatterns : List String := ["product", "name", "model", "商品", "型號", "名稱", "品名"]

/-- Column-name patterns for the quantity field. -/
def qtyPatterns : List String := ["qty", "quantity", "count", "數量", "銷量", "sales_qty"]

/-- Column-name patterns for the amount field. -/
def amtPatterns : List String := ["amount", "price", "revenue", "金額", "售價", "總價", "sales_amt", "營業額"]

/-- Column-name patterns for the cost field. -/
def costPatterns : List String := ["cost", "成本", "進價"]

/-- `getVal`: find the first key of the row whose lowercased name contains
one of the lowercased patterns, and return its value (`null` if no key
matches). -/
def getVal (row : RawRow) (patterns : List String) : JSVal :=
  match (row.map Prod.fst).find?
      (fun k => patterns.any (fun p => strIncludes (strLower k) (strLower p))) with
  | some k => (List.lookup k row).getD .null
  | none => .null

/-- The date-normalization step of `normalizeData`: a truthy numeric value is
an Excel serial date (`new Date((d - 25569) * 86400 * 1000)`, whose day
number is `⌊d⌋ - 25569`); a truthy string is parsed as a date and re-rendered
if valid, passed through verbatim otherwise; a falsy value (absent, `0`, or
the empty string) yields the literal `"Unknown"`. -/
def normalizeDateVal (dateVal : JSVal) : String :=
  if dateVal.truthy then
    match dateVal with
    | .num d => isoDateString (⌊d⌋ - 25569)
    | .str s =>
      match parseIsoDate s with
      | some n => isoDateString n
      | none => s
    | .null => "Unknown"
  else "Unknown"

/-- Normalization of one raw row into a canonical record
(the body of the `rawData.map` in `normalizeData`). -/
def normalizeRow (row : RawRow) : SalesRecord :=
  let dateVal := getVal row datePatterns
  let catVal := getVal row catPatterns
  let prodVal := getVal row prodPatterns
  let qtyVal := getVal row qtyPatterns
  let amtVal := getVal row amtPatterns
  let costVal := getVal row costPatterns
  let qty := (jsToNumber qtyVal).getD 0
  let amount := (jsToNumber amtVal).getD 0
  let productName := if prodVal.truthy then jsString prodVal else "未知商品"
  { Date := normalizeDateVal dateVal
    Category := if catVal.truthy then jsString catVal else "未分類"
    Product := productName
    Quantity := qty
    Amount := amount
    -- `costVal ? Number(costVal) : undefined`; a NaN cost behaves exactly
    -- like cost 0 in every later use (`> 0` tests and `|| 0`), so the NaN
    -- case is modelled as 0.
    Cost := if costVal.truthy then some ((jsToNumber costVal).getD 0) else none
    Brand := detectBrand productName
    isGift := detectGift productName amount }

/-- `normalizeData` (`src/utils/dataProcessor.ts:51`): normalize every raw
row, then keep only rows with positive quantity or positive amount. -/
def normalizeData (rawData : List RawRow) : List SalesRecord :=
  (rawData.map normalizeRow).filter (fun r => decide (0 < r.Quantity ∨ 0 < r.Amount))

example : parseIsoDate "2024-03-01" = some 19783 := by decide
example : isoDateString 19783 = "2024-03-01" := by decide
example : parseIsoDate "Unknown" = none := by rfl
example : strIncludes "Sales Date" "date" = false ∧ strIncludes "sales date" "date" = true := by
  decide
example : strLower "Sales Date" = "sales date" := by decide
example : jsToNumber (.str " 12.5 ") = some (25 / 2) := by decide
example : jsRound (5 / 2) = 3 := by decide
example : detectBrand "LG Fridge X" = "LG 樂金" := by decide
example :
    normalizeData [[("Date", .str "2024-01-05"), ("Product", .str "LG Fridge X"),
      ("Qty", .num 2), ("Amount", .num 40000)]] =
    [{ Date := "2024-01-05", Category := "未分類", Product := "LG Fridge X",
       Quantity := 2, Amount := 40000, Cost := none, Brand := "LG 樂金",
       isGift := false }] := by decide

/-! ## Generic grouping: the JS `Map`-accumulation pattern
Every analyzer groups records into a `Map` keyed by a string, updating the
entry of an existing key and appending a fresh entry (insertion order) for a
new key. -/

section Grouping

variable {α β : Type}

/-- First-match association lookup (model of `Map.prototype.get`). -/
def assocLookup (k : String) : List (String × β) → Option β
  | [] => none
  | (k2, b) :: t => if k2 = k then some b else assocLookup k t

/-- Update the first entry carrying the given key. -/
def updFirst (k : String) (f : β → β) : List (String × β) → List (String × β)
  | [] => []
  | (k2, b) :: t => if k2 = k then (k2, f b) :: t else (k2, b) :: updFirst k f t

variable (key : α → String) (initB : α → β) (upd : β → α → β)

/-- One row of `Map` grouping: update the row's key if present, otherwise
append a fresh entry initialized from the row, then updated with it. -/
def groupUpd (acc : List (String × β)) (row : α) : List (String × β) :=
  if (acc.map Prod.fst).contains (key row) then
    updFirst (key row) (fun b => upd b row) acc
  else acc ++ [(key row, upd (initB row) row)]

/-- `Map`-based grouping of a row list, entries in key-insertion order. -/
def groupList (rows : List α) : List (String × β) :=
  rows.foldl (groupUpd key initB upd) []

theorem contains_true_iff_mem (k : String) (l : List String) :
    l.contains k = true ↔ k ∈ l := List.elem_iff

theorem updFirst_map_fst (k : String) (f : β → β) (l : List (String × β)) :
    (updFirst k f l).map Prod.fst = l.map Prod.fst := by
  induction l with
  | nil => rfl
  | cons e t ih =>
    obtain ⟨k2, b⟩ := e
    by_cases h : k2 = k <;> simp [updFirst, h, ih]

theorem assocLookup_isSome_iff_contains (k : String) (l : List (String × β)) :
    (assocLookup k l).isSome = true ↔ (l.map Prod.fst).contains k = true := by
  rw [contains_true_iff_mem]
  induction l with
  | nil => simp [assocLookup]
  | cons e t ih =>
    obtain ⟨k2, b⟩ := e
    by_cases h : k2 = k
    · simp [assocLookup, h]
    · have h2 : ¬ (k = k2) := fun hh => h hh.symm
      simp [assocLookup, h, h2, ih]

theorem updFirst_assocLookup_self (k : String) (f : β → β) (l : List (String × β)) (b : β)
    (h : assocLookup k l = some b) :
    assocLookup k (updFirst k f l) = some (f b) := by
  induction l with
  | nil => simp [assocLookup] at h
  | cons e t ih =>
    obtain ⟨k2, b2⟩ := e
    by_cases hk : k2 = k
    · simp only [assocLookup, if_pos hk] at h
      simp only [updFirst, if_pos hk, assocLookup, if_pos hk]
      simp_all
    · simp only [assocLookup, if_neg hk] at h
      simp only [updFirst, if_neg hk, assocLookup, if_neg hk]
      exact ih h

theorem updFirst_assocLookup_ne (k k2 : String) (f : β → β) (l : List (String × β))
    (h : k ≠ k2) :
    assocLookup k (updFirst k2 f l) = assocLookup k l := by
  induction l with
  | nil => rfl
  | cons e t ih =>
    obtain ⟨k3, b⟩ := e
    by_cases hk : k3 = k2
    · subst hk
      have hne : ¬ (k3 = k) := fun hh => h hh.symm
      simp [updFirst, assocLookup, hne]
    · by_cases hk2 : k3 = k
      · simp [updFirst, assocLookup, hk2, if_neg h]
      · simp [updFirst, if_neg hk, assocLookup, hk2, ih]

theorem assocLookup_append_some (k : String) (l l2 : List (String × β)) (b : β)
    (h : assocLookup k l = some b) :
    assocLookup k (l ++ l2) = some b := by
  induction l with
  | nil => simp [assocLookup] at h
  | cons e t ih =>
    obtain ⟨k2, b2⟩ := e
    by_cases hk : k2 = k
    · simp_all [assocLookup, hk]
    · simp only [assocLookup, if_neg hk] at h
      simp only [List.cons_append, assocLookup, if_neg hk]
      exact ih h

theorem assocLookup_append_none (k : String) (l l2 : List (String × β))
    (h : assocLookup k l = none) :
    assocLookup k (l ++ l2) = assocLookup k l2 := by
  induction l with
  | nil => rfl
  | cons e t ih =>
    obtain ⟨k2, b2⟩ := e
    by_cases hk : k2 = k
    · simp [assocLookup, hk] at h
    · simp only [assocLookup, if_neg hk] at h
      simp only [List.cons_append, assocLookup, if_neg hk]
      exact ih h

theorem assocLookup_groupUpd_eq (acc : List (String × β)) (row : α) (k : String)
    (hk : key row = k) :
    assocLookup k (groupUpd key initB upd acc row) =
      match assocLookup k acc with
      | some b => some (upd b row)
      | none => some (upd (initB row) row) := by
  subst hk
  unfold groupUpd
  cases hl : assocLookup (key row) acc with
  | some b =>
    have hc : ((acc.map Prod.fst).contains (key row)) = true := by
      rw [← assocLookup_isSome_iff_contains, hl]; rfl
    simp only [hc, if_pos]
    exact updFirst_assocLookup_self _ _ _ _ hl
  | none =>
    have hc : ((acc.map Prod.fst).contains (key row)) = false := by
      by_contra hcc
      have : ((acc.map Prod.fst).contains (key row)) = true := by
        cases hcv : (acc.map Prod.fst).contains (key row)
        · exact absurd hcv hcc
        · rfl
      rw [← assocLookup_isSome_iff_contains, hl] at this
      exact Bool.false_ne_true this
    simp only [hc, Bool.false_eq_true, if_false]
    rw [assocLookup_append_none _ _ _ hl]
    simp [assocLookup]

theorem assocLookup_groupUpd_ne (acc : List (String × β)) (row : α) (k : String)
    (hk : key row ≠ k) :
    assocLookup k (groupUpd key initB upd acc row) = assocLookup k acc := by
  unfold groupUpd
  cases hc : ((acc.map Prod.fst).contains (key row)) with
  | true =>
    simp only [if_pos]
    exact updFirst_assocLookup_ne _ _ _ _ (fun h => hk h.symm)
  | false =>
    simp only [Bool.false_eq_true, if_false]
    cases hl : assocLookup k acc with
    | some b => exact assocLookup_append_some _ _ _ _ hl
    | none =>
      rw [assocLookup_append_none _ _ _ hl]
      simp [assocLookup, fun h => hk h]

theorem assocLookup_foldl_some (rows : List α) (acc : List (String × β)) (k : String)
    (b : β) (h : assocLookup k acc = some b) :
    assocLookup k (rows.foldl (groupUpd key initB upd) acc) =
      some ((rows.filter (fun r => decide (key r = k))).foldl upd b) := by
  induction rows generalizing acc b with
  | nil => simpa using h
  | cons row rows ih =>
    simp only [List.foldl_cons, List.filter_cons]
    by_cases hk : key row = k
    · have hstep := assocLookup_groupUpd_eq key initB upd acc row k hk
      rw [h] at hstep
      simp only [hk, decide_True, if_pos, List.foldl_cons]
      exact ih _ _ hstep
    · have hstep := assocLookup_groupUpd_ne key initB upd acc row k hk
      rw [h] at hstep
      have hd : decide (key row = k) = false := decide_eq_false hk
      simp only [hd, Bool.false_eq_true, if_false]
      exact ih _ _ hstep

theorem assocLookup_foldl_none (rows : List α) (acc : List (String × β)) (k : String)
    (h : assocLookup k acc = none) :
    assocLookup k (rows.foldl (groupUpd key initB upd) acc) =
      match rows.filter (fun r => decide (key r = k)) with
      | [] => none
      | r :: rs => some (rs.foldl upd (upd (initB r) r)) := by
  induction rows generalizing acc with
  | nil => simpa using h
  | cons row rows ih =>
    simp only [List.foldl_cons, List.filter_cons]
    by_cases hk : key row = k
    · have hstep := assocLookup_groupUpd_eq key initB upd acc row k hk
      rw [h] at hstep
      simp only [hk, decide_True, if_pos]
      exact assocLookup_foldl_some key initB upd rows _ k _ hstep
    · have hstep := assocLookup_groupUpd_ne key initB upd acc row k hk
      rw [h] at hstep
      have hd : decide (key row = k) = false := decide_eq_false hk
      simp only [hd, Bool.false_eq_true, if_false]
      exact ih _ hstep

/-- Lookup in the grouped list: the entry of key `k` is the `upd`-fold of the
rows whose key is `k` (the first such row also supplying the initial value);
keys contributed by no row are absent. -/
theorem groupList_assocLookup (rows : List α) (k : String) :
    assocLookup k (groupList key initB upd rows) =
      match rows.filter (fun r => decide (key r = k)) with
      | [] => none
      | r :: rs => some (rs.foldl upd (upd (initB r) r)) :=
  assocLookup_foldl_none key initB upd rows [] k rfl

theorem groupList_keys_sub (rows : List α) (k : String)
    (h : k ∈ (groupList key initB upd rows).map Prod.fst) :
    ∃ r ∈ rows, key r = k := by
  have hs : (assocLookup k (groupList key initB upd rows)).isSome = true := by
    rw [assocLookup_isSome_iff_contains]
    exact (contains_true_iff_mem _ _).mpr h
  rw [groupList_assocLookup] at hs
  cases hf : rows.filter (fun r => decide (key r = k)) with
  | nil => rw [hf] at hs; simp at hs
  | cons r rs =>
    have hr : r ∈ rows.filter (fun r => decide (key r = k)) := by
      rw [hf]; exact List.mem_cons_self r rs
    rw [List.mem_filter] at hr
    exact ⟨r, hr.1, of_decide_eq_true hr.2⟩

theorem groupList_keys_nodup (rows : List α) :
    ((groupList key initB upd rows).map Prod.fst).Nodup := by
  suffices h : ∀ acc : List (String × β), (acc.map Prod.fst).Nodup →
      ((rows.foldl (groupUpd key initB upd) acc).map Prod.fst).Nodup by
    exact h [] List.nodup_nil
  induction rows with
  | nil => intro acc hacc; simpa using hacc
  | cons row rows ih =>
    intro acc hacc
    simp only [List.foldl_cons]
    apply ih
    unfold groupUpd
    cases hc : ((acc.map Prod.fst).contains (key row)) with
    | true => simpa [updFirst_map_fst] using hacc
    | false =>
      have hnm : key row ∉ acc.map Prod.fst := by
        intro hmem
        have := (contains_true_iff_mem _ _).mpr hmem
        rw [hc] at this
        exact Bool.false_ne_true this
      simp only [Bool.false_eq_true, if_false, List.map_append, List.map_cons,
        List.map_nil]
      rw [List.nodup_append]
      refine ⟨hacc, List.nodup_singleton _, ?_⟩
      intro a ha hb
      rw [List.mem_singleton] at hb
      exact hnm (hb ▸ ha)

theorem sum_updFirst (f : β → ℚ) (ff : β → β) (c : ℚ) (k : String)
    (hf : ∀ b, f (ff b) = f b + c) (l : List (String × β))
    (h : (l.map Prod.fst).contains k = true) :
    ((updFirst k ff l).map (fun e => f e.2)).sum = (l.map (fun e => f e.2)).sum + c := by
  induction l with
  | nil => simp at h
  | cons e t ih =>
    obtain ⟨k2, b⟩ := e
    by_cases hk : k2 = k
    · simp only [updFirst, if_pos hk, List.map_cons, List.sum_cons, hf]
      ring
    · have h2 : (t.map Prod.fst).contains k = true := by
        rw [contains_true_iff_mem] at h ⊢
        simp only [List.map_cons, List.mem_cons] at h
        rcases h with h | h
        · exact absurd h.symm hk
        · exact h
      simp only [updFirst, if_neg hk, List.map_cons, List.sum_cons, ih h2]
      ring

theorem sum_groupList (f : β → ℚ) (g : α → ℚ) (rows : List α)
    (hinit : ∀ r, f (initB r) = 0) (hupd : ∀ b r, f (upd b r) = f b + g r) :
    ((groupList key initB upd rows).map (fun e => f e.2)).sum = (rows.map g).sum := by
  suffices h : ∀ acc : List (String × β),
      ((rows.foldl (groupUpd key initB upd) acc).map (fun e => f e.2)).sum =
        (acc.map (fun e => f e.2)).sum + (rows.map g).sum by
    simpa using h []
  induction rows with
  | nil => intro acc; simp
  | cons row rows ih =>
    intro acc
    simp only [List.foldl_cons, List.map_cons, List.sum_cons, ih]
    have hstep : ((groupUpd key initB upd acc row).map (fun e => f e.2)).sum =
        (acc.map (fun e => f e.2)).sum + g row := by
      unfold groupUpd
      cases hc : ((acc.map Prod.fst).contains (key row)) with
      | true =>
        simp only [if_pos]
        exact sum_updFirst f (fun b => upd b row) (g row) (key row)
          (fun b => hupd b row) acc hc
      | false =>
        simp only [Bool.false_eq_true, if_false, List.map_append, List.sum_append,
          List.map_cons, List.sum_cons, List.map_nil, List.sum_nil, hupd, hinit]
        ring
    rw [hstep]
    ring

end Grouping

/-! ## Comparator-induced orderings
`Array.prototype.sort((a, b) => keyOf b - keyOf a)` sorts descending by
`keyOf`; `(a, b) => keyOf a - keyOf b` sorts ascending. -/

section SortRel

variable {α : Type} {γ : Type} [LinearOrder γ]

/-- Ordering relation of the descending-by-key JS comparator. -/
def descBy (keyOf : α → γ) : α → α → Prop := fun a b => keyOf b ≤ keyOf a

/-- Ordering relation of the ascending-by-key JS comparator. -/
def ascBy (keyOf : α → γ) : α → α → Prop := fun a b => keyOf a ≤ keyOf b

instance (keyOf : α → γ) : DecidableRel (descBy keyOf) := fun a b =>
  inferInstanceAs (Decidable (keyOf b ≤ keyOf a))

instance (keyOf : α → γ) : DecidableRel (ascBy keyOf) := fun a b =>
  inferInstanceAs (Decidable (keyOf a ≤ keyOf b))

instance (keyOf : α → γ) : IsTotal α (descBy keyOf) :=
  ⟨fun a b => le_total (keyOf b) (keyOf a)⟩

instance (keyOf : α → γ) : IsTotal α (ascBy keyOf) :=
  ⟨fun a b => le_total (keyOf a) (keyOf b)⟩

instance (keyOf : α → γ) : IsTrans α (descBy keyOf) :=
  ⟨fun _ _ _ h1 h2 => le_trans h2 h1⟩

instance (keyOf : α → γ) : IsTrans α (ascBy keyOf) :=
  ⟨fun _ _ _ h1 h2 => le_trans h1 h2⟩

end SortRel

/-! ## 1. Sales contribution analysis (ABC analysis)
`analyzePerformance`, `src/utils/dataProcessor.ts:104`. -/

/-- The ABC classification (`ABCClass` in `src/types.ts`). -/
inductive ABCClass where
  | A
  | B
  | C
deriving DecidableEq, Repr

/-- One product's performance view (`ProductPerformance` in `src/types.ts`). -/
structure ProductPerformance where
  productName : String
  category : String
  totalQty : ℚ
  totalAmount : ℚ
  averagePrice : ℤ
  qtyShare : ℚ
  amountShare : ℚ
  cumulativeShare : ℚ
  abcClass : ABCClass
  salesFrequency : ℚ
  velocityScore : ℚ
deriving DecidableEq, Repr

/-- The zero-initialized entry created for a product's first record. -/
def perfInit (row : SalesRecord) : ProductPerformance :=
  { productName := row.Product
    category := row.Category
    totalQty := 0
    totalAmount := 0
    averagePrice := 0
    qtyShare := 0
    amountShare := 0
    cumulativeShare := 0
    abcClass := .C
    salesFrequency := 0
    velocityScore := 0 }

/-- The per-record aggregation step of `analyzePerformance`. -/
def perfUpd (item : ProductPerformance) (row : SalesRecord) : ProductPerformance :=
  { item with
    totalQty := item.totalQty + row.Quantity
    totalAmount := item.totalAmount + row.Amount
    salesFrequency := item.salesFrequency + 1 }

/-- Walk the revenue-sorted list accumulating the running cumulative share
and assigning the ABC class from it (`≤ 80 → A`, `≤ 95 → B`, else `C`). -/
def assignABC : ℚ → List ProductPerformance → List ProductPerformance
  | _, [] => []
  | acc, item :: t =>
    let c := acc + item.amountShare
    { item with
      cumulativeShare := c
      abcClass := if c ≤ 80 then .A else if c ≤ 95 then .B else .C } :: assignABC c t

/-- The share/average/velocity computation applied to each grouped entry
(`1.5` and `0.5` are written `3 / 2` and `1 / 2`). -/
def mkPerfEntry (totalSystemAmount : ℚ) (e : String × ProductPerformance) :
    ProductPerformance :=
  { e.2 with
    amountShare :=
      if 0 < totalSystemAmount then e.2.totalAmount / totalSystemAmount * 100 else 0
    averagePrice :=
      if 0 < e.2.totalQty then jsRound (e.2.totalAmount / e.2.totalQty) else 0
    velocityScore :=
      min 100 (e.2.totalQty * (3 / 2) + e.2.salesFrequency * (1 / 2)) }

/-- `analyzePerformance`: group by product, compute shares and heuristics,
sort descending by total amount, then assign cumulative share and ABC class. -/
def analyzePerformance (data : List SalesRecord) : List ProductPerformance :=
  let totalSystemAmount := (data.map (fun r => r.Amount)).sum
  let grouped := groupList (fun r => r.Product) perfInit perfUpd data
  let result := grouped.map (mkPerfEntry totalSystemAmount)
  assignABC 0 (result.insertionSort (descBy (fun p => p.totalAmount)))

example :
    (analyzePerformance
      [{ Date := "2024-01-05", Category := "Fridge", Product := "LG Fridge X",
         Quantity := 2, Amount := 40000, Cost := none, Brand := "LG 樂金", isGift := false },
       { Date := "2024-01-06", Category := "Fridge", Product := "LG Fridge X",
         Quantity := 1, Amount := 20000, Cost := none, Brand := "LG 樂金", isGift := false }]) =
    [{ productName := "LG Fridge X", category := "Fridge", totalQty := 3,
       totalAmount := 60000, averagePrice := 20000, qtyShare := 0, amountShare := 100,
       cumulativeShare := 100, abcClass := .C, salesFrequency := 2,
       velocityScore := 11 / 2 }] := by decide

/-! ## 2. Seasonality analysis (`analyzeSeasonality`, `dataProcessor.ts:165`) -/

/-- One month's seasonality view (`SeasonalityData` in `src/types.ts`). -/
structure SeasonalityData where
  month : String
  sales : ℚ
  revenue : ℚ
  topCategory : String
deriving DecidableEq, Repr

/-- Per-month accumulator of `analyzeSeasonality`; `categories` models the
per-category quantity record in key-insertion order. -/
structure SeasonAcc where
  totalQty : ℚ
  totalRev : ℚ
  categories : List (String × ℚ)
deriving DecidableEq, Repr

/-- `entry.categories[cat] = (entry.categories[cat] || 0) + qty`. -/
def bumpAssoc (l : List (String × ℚ)) (k : String) (q : ℚ) : List (String × ℚ) :=
  if (l.map Prod.fst).contains k then updFirst k (fun v => v + q) l
  else l ++ [(k, q)]

/-- The month key: the first seven characters (`YYYY-MM`) of the date string,
or the whole string when shorter. -/
def monthKey (s : String) : String := if 7 ≤ s.length then ⟨s.data.take 7⟩ else s

/-- Ascending-by-month ordering (model of the `localeCompare` comparator on
the pipeline's ASCII month keys). -/
def monthAsc (a b : SeasonalityData) : Prop := strLtB b.month a.month = false

instance : DecidableRel monthAsc := fun a b =>
  inferInstanceAs (Decidable (strLtB b.month a.month = false))

/-- `analyzeSeasonality`: group by month key, sum quantity and revenue, track
per-category quantities, report the top category, sort ascending by month. -/
def analyzeSeasonality (data : List SalesRecord) : List SeasonalityData :=
  let grouped := groupList (fun r => monthKey r.Date)
    (fun _ => ({ totalQty := 0, totalRev := 0, categories := [] } : SeasonAcc))
    (fun e r =>
      { totalQty := e.totalQty + r.Quantity
        totalRev := e.totalRev + r.Amount
        categories := bumpAssoc e.categories r.Category r.Quantity }) data
  (grouped.map (fun e =>
    let sortedCats := e.2.categories.insertionSort (descBy (fun c => c.2))
    { month := e.1
      sales := e.2.totalQty
      revenue := e.2.totalRev
      topCategory := match sortedCats.head? with | some c => c.1 | none => "None" })
  ).insertionSort monthAsc

/-! ## 3. Price band analysis (`analyzePriceBands`, `dataProcessor.ts:197`) -/

/-- One price band's view (`PriceBandMetric` in `src/types.ts`). -/
structure PriceBandMetric where
  range : String
  salesCount : ℚ
  revenue : ℚ
  percent : ℚ
deriving DecidableEq, Repr

/-- The five fixed price-band labels, in display order. -/
def bandOrder : List String :=
  ["平價 (<3k)", "入門 (3k-10k)", "中階 (10k-25k)", "高階 (25k-40k)", "旗艦 (>40k)"]

/-- The band of a unit price. -/
def bandOf (price : ℚ) : String :=
  if price < 3000 then "平價 (<3k)"
  else if price < 10000 then "入門 (3k-10k)"
  else if price < 25000 then "中階 (10k-25k)"
  else if price < 40000 then "高階 (25k-40k)"
  else "旗艦 (>40k)"

/-- The band a record falls into: unit price is amount per quantity, or 0 for
quantity 0. -/
def recBand (r : SalesRecord) : String :=
  bandOf (if 0 < r.Quantity then r.Amount / r.Quantity else 0)

/-- `analyzePriceBands`: bucket records into the five bands, sum quantity and
revenue, and output in the fixed band order (ascending `indexOf`
comparator). -/
def analyzePriceBands (data : List SalesRecord) : List PriceBandMetric :=
  let totalRev := (data.map (fun r => r.Amount)).sum
  let grouped := groupList recBand (fun _ => ((0 : ℚ), (0 : ℚ)))
    (fun b r => (b.1 + r.Quantity, b.2 + r.Amount)) data
  ((grouped.map (fun e =>
    { range := e.1
      salesCount := e.2.1
      revenue := e.2.2
      percent := if 0 < totalRev then e.2.2 / totalRev * 100 else 0 }))
  ).insertionSort (ascBy (fun pb => bandOrder.indexOf pb.range))

/-! ## 4. Brand analysis (`analyzeBrands`, `dataProcessor.ts:231`) -/

/-- One brand's view (`BrandMetric` in `src/types.ts`). -/
structure BrandMetric where
  brand : String
  revenue : ℚ
  salesCount : ℚ
  percentage : ℚ
deriving DecidableEq, Repr

/-- `analyzeBrands`: group by the precomputed brand field, sum revenue and
quantity, sort descending by revenue. -/
def analyzeBrands (data : List SalesRecord) : List BrandMetric :=
  let totalRev := (data.map (fun r => r.Amount)).sum
  let grouped := groupList (fun r => r.Brand) (fun _ => ((0 : ℚ), (0 : ℚ)))
    (fun b r => (b.1 + r.Amount, b.2 + r.Quantity)) data
  ((grouped.map (fun e =>
    { brand := e.1
      revenue := e.2.1
      salesCount := e.2.2
      percentage := if 0 < totalRev then e.2.1 / totalRev * 100 else 0 }))
  ).insertionSort (descBy (fun b => b.revenue))

/-! ## Computable square-root ceiling and rounding
`Math.ceil(x)` and `Math.round(x)` of `x = √q` for rational `q ≥ 0` are
integers characterized by rational inequalities; the bridging theorems below
relate them to `Real.sqrt`. -/

/-- Scan upward for the least `n ≥ cur` with `q ≤ n ^ 2` (within fuel). -/
def sqrtCeilAux (q : ℚ) : ℕ → ℕ → ℕ
  | cur, 0 => cur
  | cur, fuel + 1 => if q ≤ (cur : ℚ) ^ 2 then cur else sqrtCeilAux q (cur + 1) fuel

/-- `⌈√q⌉` for rational `q` (0 for `q ≤ 0`): the least `n` with `q ≤ n ^ 2`. -/
def sqrtCeil (q : ℚ) : ℕ := sqrtCeilAux q 0 ⌈max q 0⌉.toNat

/-- Scan upward for the least `n ≥ cur` with `4 q < (2 n + 1) ^ 2`. -/
def sqrtRoundAux (q : ℚ) : ℕ → ℕ → ℕ
  | cur, 0 => cur
  | cur, fuel + 1 =>
    if 4 * q < (2 * (cur : ℚ) + 1) ^ 2 then cur else sqrtRoundAux q (cur + 1) fuel

/-- `round (√q)` for rational `q` (0 for `q ≤ 0`): the least `n` with
`4 q < (2 n + 1) ^ 2`. -/
def sqrtRound (q : ℚ) : ℕ := sqrtRoundAux q 0 ⌈max q 0⌉.toNat

example : sqrtCeil 2 = 2 ∧ sqrtCeil 4 = 2 ∧ sqrtCeil 0 = 0 ∧ sqrtCeil (17 / 4) = 3 := by decide
example : sqrtRound 2 = 1 ∧ sqrtRound 4 = 2 ∧ sqrtRound (25 / 4) = 3 := by decide

/-! ## 6. Inventory metrics (`calculateInventoryMetrics`, `dataProcessor.ts:293`) -/

/-- One product's inventory view (`InventoryMetrics` in `src/types.ts`). -/
structure InventoryMetrics where
  productName : String
  category : String
  avgDailySales : ℚ
  salesVariance : ℚ
  suggestedOrderQty : ℤ
  safetyStock : ℤ
  reorderPoint : ℤ
deriving DecidableEq, Repr

/-- Per-product accumulator: the per-record quantity sample (push order) and
the first record's category. -/
structure InvAcc where
  qty : List ℚ
  category : String
deriving DecidableEq, Repr

/-! `calculateInventoryMetrics`: `Z = 1.65`, so `Math.ceil(Z * stdDev * √L)`
is the least integer whose square is at least
`Z² σ² L = (1089/400) · variance · L` (`sqrtCeil`), and
`Math.round(stdDev * 100)` is `sqrtRound (10000 · variance)`; the bridging
theorems relate both to `Real.sqrt`. -/

/-- The zero entry created for a product's first record. -/
def invInit (r : SalesRecord) : InvAcc := { qty := [], category := r.Category }

/-- Push one record's quantity into the product's sample. -/
def invUpd (b : InvAcc) (r : SalesRecord) : InvAcc := { b with qty := b.qty ++ [r.Quantity] }

/-- The per-product metric computation applied to each grouped entry. -/
def mkInvEntry (totalDays leadTimeDays : ℕ) (e : String × InvAcc) : InventoryMetrics :=
  let totalQty := e.2.qty.sum
  let avgDailySales : ℚ := totalQty / (totalDays : ℚ)
  let mean : ℚ := e.2.qty.sum / (e.2.qty.length : ℚ)
  let variance : ℚ := (e.2.qty.map (fun b => (b - mean) ^ 2)).sum / (e.2.qty.length : ℚ)
  let ss : ℤ := (sqrtCeil ((1089 / 400) * variance * (leadTimeDays : ℚ)) : ℤ)
  { productName := e.1
    category := e.2.category
    avgDailySales := (jsRound (avgDailySales * 100) : ℚ) / 100
    salesVariance := (sqrtRound (10000 * variance) : ℚ) / 100
    safetyStock := ss
    reorderPoint := ⌈(ss : ℚ) + avgDailySales * (leadTimeDays : ℚ)⌉
    suggestedOrderQty := ⌈avgDailySales * 30⌉ }

/-- `calculateInventoryMetrics`: per product, average daily sales over the
count of distinct dates in the whole dataset (minimum 1; the source's
`[...new Set(dates)].sort()` is used only through its length), population
standard deviation of the per-record quantities, and the derived safety
stock, reorder point and suggested order quantity; sorted descending by the
(display-rounded) average daily sales. -/
def calculateInventoryMetrics (data : List SalesRecord) (leadTimeDays : ℕ) :
    List InventoryMetrics :=
  let totalDays : ℕ := max ((data.map (fun r => r.Date)).dedup.length) 1
  let grouped := groupList (fun r => r.Product) invInit invUpd data
  ((grouped.map (mkInvEntry totalDays leadTimeDays))
  ).insertionSort (descBy (fun m => m.avgDailySales))

/-! ## 7. Demand forecast (`forecastNextMonth`, `dataProcessor.ts:346`) -/

/-- Trend direction of the forecast. -/
inductive TrendDir where
  | UP
  | DOWN
  | STABLE
deriving DecidableEq, Repr

/-- Confidence level of the forecast. -/
inductive ConfLevel where
  | HIGH
  | MEDIUM
  | LOW
deriving DecidableEq, Repr

/-- The forecast result (`ForecastResult` in `src/types.ts`). -/
structure ForecastResult where
  nextMonthRevenue : ℤ
  nextMonthQty : ℤ
  trend : TrendDir
  trendPercent : ℚ
  confidence : ConfLevel
  method : String
deriving DecidableEq, Repr

/-- `forecastNextMonth`: 3-month moving average over the seasonality series;
explicit all-zero result for an empty series.  The source computes the trend
percent and direction inside `if (revenues.length >= 2)`, leaving the
initial `0`/`STABLE` otherwise; deriving the direction from the (then zero)
percent is equivalent. -/
def forecastNextMonth (seasonality : List SeasonalityData) : ForecastResult :=
  if seasonality.length = 0 then
    { nextMonthRevenue := 0
      nextMonthQty := 0
      trend := .STABLE
      trendPercent := 0
      confidence := .LOW
      method := "無歷史數據" }
  else
    let recent := seasonality.drop (seasonality.length - 3)
    let revenues := recent.map (fun s => s.revenue)
    let quantities := recent.map (fun s => s.sales)
    let avgRevenue := revenues.sum / (revenues.length : ℚ)
    let avgQty := quantities.sum / (quantities.length : ℚ)
    let tp : ℚ :=
      if 2 ≤ revenues.length then
        let lastM := (revenues.getLast?).getD 0
        let prevM := (revenues.drop (revenues.length - 2)).headD 0
        if 0 < prevM then (lastM - prevM) / prevM * 100 else 0
      else 0
    { nextMonthRevenue := jsRound avgRevenue
      nextMonthQty := jsRound avgQty
      trend := if 5 < tp then .UP else if tp < -5 then .DOWN else .STABLE
      trendPercent := (jsRound (tp * 10) : ℚ) / 10
      confidence :=
        if 6 ≤ seasonality.length then .HIGH
        else if seasonality.length < 3 then .LOW
        else .MEDIUM
      method := "3個月移動平均" }

/-! ## 9. Profit margin analysis (`analyzeProfitMargin`, `dataProcessor.ts:437`) -/

/-- One product's profit view (`ProfitAnalysis` in `src/types.ts`). -/
structure ProfitAnalysis where
  productName : String
  category : String
  totalRevenue : ℚ
  totalCost : ℚ
  grossProfit : ℚ
  marginPercent : ℚ
deriving DecidableEq, Repr

/-- Per-product accumulator of revenue and cost. -/
structure ProfitAcc where
  revenue : ℚ
  cost : ℚ
  category : String
deriving DecidableEq, Repr

/-- The zero entry created for a product's first record. -/
def profitInit (r : SalesRecord) : ProfitAcc :=
  { revenue := 0, cost := 0, category := r.Category }

/-- Accumulate one record's revenue and `cost · quantity`. -/
def profitUpd (p : ProfitAcc) (r : SalesRecord) : ProfitAcc :=
  { p with
    revenue := p.revenue + r.Amount
    cost := p.cost + (r.Cost).getD 0 * r.Quantity }

/-- The margin computation applied to each grouped entry. -/
def mkProfitEntry (e : String × ProfitAcc) : ProfitAnalysis :=
  { productName := e.1
    category := e.2.category
    totalRevenue := e.2.revenue
    totalCost := e.2.cost
    grossProfit := e.2.revenue - e.2.cost
    marginPercent :=
      if 0 < e.2.revenue then
        (jsRound ((e.2.revenue - e.2.cost) / e.2.revenue * 1000) : ℚ) / 10
      else 0 }

/-- `analyzeProfitMargin`: activated only when some record carries a defined
positive cost; per product, sum revenue and `cost · quantity`, exclude
zero-revenue products, round margin percent to one decimal, sort descending
by margin percent. -/
def analyzeProfitMargin (data : List SalesRecord) : List ProfitAnalysis :=
  let hasCoat := data.any (fun r => match r.Cost with | some c => decide (0 < c) | none => false)
  if hasCoat then
    let grouped := groupList (fun r => r.Product) profitInit profitUpd data
    (((grouped.map mkProfitEntry).filter (fun p => decide (0 < p.totalRevenue)))
    ).insertionSort (descBy (fun p => p.marginPercent))
  else []

/-! ## 10. Slow-moving detection (`detectSlowMoving`, `dataProcessor.ts:472`) -/

/-- Risk level of a slow-moving alert. -/
inductive RiskLevel where
  | HIGH
  | MEDIUM
  | LOW
deriving DecidableEq, Repr

/-- One slow-moving alert (`SlowMovingAlert` in `src/types.ts`). -/
structure SlowMovingAlert where
  productName : String
  category : String
  lastSaleDate : String
  daysSinceLastSale : ℤ
  totalQtyInPeriod : ℚ
  riskLevel : RiskLevel
  recommendation : String
deriving DecidableEq, Repr

/-- Per-product accumulator: running lexicographic-max last-sale date and
total quantity, plus the first record's category. -/
structure SlowAcc where
  lastSale : String
  totalQty : ℚ
  category : String
deriving DecidableEq, Repr

/-- The lexicographic maximum of a string list
(`dates.sort()[dates.length - 1]` in the source selects exactly this
element; `none` for the empty list, where the source returns early). -/
def listMaxStr : List String → Option String
  | [] => none
  | d :: t => some (t.foldl (fun acc x => if strLtB acc x then x else acc) d)

/-- The entry created for a product's first record. -/
def slowInit (r : SalesRecord) : SlowAcc :=
  { lastSale := r.Date, totalQty := 0, category := r.Category }

/-- Accumulate one record: add its quantity and keep the later date. -/
def slowUpd (p : SlowAcc) (r : SalesRecord) : SlowAcc :=
  { p with
    totalQty := p.totalQty + r.Quantity
    lastSale := if strLtB p.lastSale r.Date then r.Date else p.lastSale }

/-- The alert produced (or not) for one grouped entry: requires both the
dataset's last timestamp and the product's last-sale timestamp to be valid
and their day difference to reach the threshold. -/
def mkSlowAlert (thresholdDays : ℤ) (lastRecordDay : Option ℤ)
    (e : String × SlowAcc) : Option SlowMovingAlert :=
  match lastRecordDay, parseIsoDate e.2.lastSale with
  | some g, some s =>
    let daysSince := g - s
    if thresholdDays ≤ daysSince then
      some { productName := e.1
             category := e.2.category
             lastSaleDate := e.2.lastSale
             daysSinceLastSale := daysSince
             totalQtyInPeriod := e.2.totalQty
             riskLevel :=
               if 60 ≤ daysSince then .HIGH
               else if 30 ≤ daysSince then .MEDIUM
               else .LOW
             recommendation :=
               if 60 ≤ daysSince then "建議立即清倉或停止進貨"
               else if 30 ≤ daysSince then "建議促銷活動或降價處理"
               else "持續觀察銷售狀況" }
    else none
  | _, _ => none

/-- `detectSlowMoving`: per product, days between the dataset's last
(non-"Unknown") date and the product's own lexicographic-max last-sale date;
products at or above the threshold are flagged and tiered (≥60 HIGH, ≥30
MEDIUM, else LOW), sorted descending by days since last sale.

The timestamps of the two dates are whole day numbers, so
`Math.ceil((last - sale) / 86400000)` is their exact difference; an invalid
(`NaN`) timestamp on either side makes the `>= threshold` gate false, which
the `Option` match models.  (`firstRecordDate`/`dataCoverageDays` are
computed by the source but never used in its output, and are omitted.) -/
def detectSlowMoving (data : List SalesRecord) (thresholdDays : ℤ) :
    List SlowMovingAlert :=
  let dates := (data.map (fun r => r.Date)).filter (fun d => decide (d ≠ "Unknown"))
  match listMaxStr dates with
  | none => []
  | some lastStr =>
    let lastRecordDay := parseIsoDate lastStr
    let grouped := groupList (fun r => r.Product) slowInit slowUpd data
    let alerts := grouped.filterMap (mkSlowAlert thresholdDays lastRecordDay)
    alerts.insertionSort (descBy (fun a => a.daysSinceLastSale))

/-! ## The deduplicating normalizer variant (`src/unnamed/part_002`) -/

/-- The variant's canonical record (its `SalesRecord` has no gift flag). -/
structure SalesRecordV2 where
  Date : String
  Category : String
  Product : String
  Quantity : ℚ
  Amount : ℚ
  Cost : Option ℚ
  Brand : String
deriving DecidableEq, Repr

/-- Normalization of one raw row in the deduplicating variant (identical
field logic to `normalizeRow`, minus the gift flag). -/
def normalizeRowV2 (row : RawRow) : SalesRecordV2 :=
  let dateVal := getVal row datePatterns
  let catVal := getVal row catPatterns
  let prodVal := getVal row prodPatterns
  let qtyVal := getVal row qtyPatterns
  let amtVal := getVal row amtPatterns
  let costVal := getVal row costPatterns
  let productName := if prodVal.truthy then jsString prodVal else "未知商品"
  { Date := normalizeDateVal dateVal
    Category := if catVal.truthy then jsString catVal else "未分類"
    Product := productName
    Quantity := (jsToNumber qtyVal).getD 0
    Amount := (jsToNumber amtVal).getD 0
    Cost := if costVal.truthy then some ((jsToNumber costVal).getD 0) else none
    Brand := detectBrand productName }

/-- The composite deduplication key string
`` `${dateStr}|${productName}|${qty}|${amount}` ``.  (The exact
number-to-string rendering is irrelevant to the claims: only equality of
keys matters, and equal field tuples give equal key strings.) -/
def rowKeyV2 (r : SalesRecordV2) : String :=
  r.Date ++ "|" ++ r.Product ++ "|" ++ toString r.Quantity ++ "|" ++ toString r.Amount

/-- The tuple the key string is built from. -/
def keyTuple (r : SalesRecordV2) : String × String × ℚ × ℚ :=
  (r.Date, r.Product, r.Quantity, r.Amount)

/-- The map-with-seen-set pass of the variant `normalizeData`: a row whose
key was already seen maps to `null`; the final filter keeps non-`null`
records with positive quantity or amount.  The seen-set registers every
non-duplicate row's key, whether or not the output filter later keeps it,
exactly as in the source (the filter runs after the map). -/
def normalizeDedupGo (seen : List String) : List RawRow → List SalesRecordV2
  | [] => []
  | row :: rest =>
    let r2 := normalizeRowV2 row
    let k := rowKeyV2 r2
    if seen.contains k then normalizeDedupGo seen rest
    else if 0 < r2.Quantity ∨ 0 < r2.Amount then r2 :: normalizeDedupGo (k :: seen) rest
    else normalizeDedupGo (k :: seen) rest

/-- The deduplicating `normalizeData` of `src/unnamed/part_002`. -/
def normalizeDataDedup (rawData : List RawRow) : List SalesRecordV2 :=
  normalizeDedupGo [] rawData

/-! ## Supporting lemmas: association lists, lexicographic order, parsing -/

theorem assocLookup_eq_of_mem_of_nodup {β : Type} (l : List (String × β)) (k : String)
    (b : β) (hnd : (l.map Prod.fst).Nodup) (hm : (k, b) ∈ l) :
    assocLookup k l = some b := by
  induction l with
  | nil => simp at hm
  | cons e t ih =>
    obtain ⟨k2, b2⟩ := e
    simp only [List.map_cons, List.nodup_cons] at hnd
    rcases List.mem_cons.mp hm with he | ht
    · obtain ⟨hk, hb⟩ := Prod.mk.inj he
      subst hk
      subst hb
      simp [assocLookup]
    · by_cases hk : k2 = k
      · subst hk
        exact absurd (List.mem_map.mpr ⟨(k2, b), ht, rfl⟩) hnd.1
      · simp only [assocLookup, if_neg hk]
        exact ih hnd.2 ht

theorem charListLt_nil_right (l : List Char) : charListLt l [] = false := by
  cases l <;> rfl

theorem charListLt_cons_iff (x y : Char) (as bs : List Char) :
    charListLt (x :: as) (y :: bs) = true ↔ x < y ∨ (x = y ∧ charListLt as bs = true) := by
  by_cases h1 : x < y
  · simp [charListLt, h1]
  · by_cases h2 : y < x
    · have hne : x ≠ y := fun he => absurd (he ▸ h2) (lt_irrefl x)
      simp [charListLt, h1, h2, hne]
    · have heq : x = y := le_antisymm (not_lt.mp h2) (not_lt.mp h1)
      simp [charListLt, h1, h2, heq]

theorem charListLt_irrefl (l : List Char) : charListLt l l = false := by
  induction l with
  | nil => rfl
  | cons c t ih =>
    rw [show charListLt (c :: t) (c :: t) = charListLt t t by simp [charListLt]]
    exact ih

theorem charListLt_trans (a b c : List Char)
    (hab : charListLt a b = true) (hbc : charListLt b c = true) :
    charListLt a c = true := by
  induction a generalizing b c with
  | nil =>
    cases b with
    | nil => simp [charListLt] at hab
    | cons y bs =>
      cases c with
      | nil => rw [charListLt_nil_right] at hbc; exact absurd hbc (by simp)
      | cons z cs => rfl
  | cons x as ih =>
    cases b with
    | nil => rw [charListLt_nil_right] at hab; exact absurd hab (by simp)
    | cons y bs =>
      cases c with
      | nil => rw [charListLt_nil_right] at hbc; exact absurd hbc (by simp)
      | cons z cs =>
        rcases (charListLt_cons_iff x y as bs).mp hab with h1 | ⟨hxy, h1⟩
        · rcases (charListLt_cons_iff y z bs cs).mp hbc with h2 | ⟨hyz, h2⟩
          · exact (charListLt_cons_iff x z as cs).mpr (Or.inl (lt_trans h1 h2))
          · exact (charListLt_cons_iff x z as cs).mpr (Or.inl (hyz ▸ h1))
        · rcases (charListLt_cons_iff y z bs cs).mp hbc with h2 | ⟨hyz, h2⟩
          · exact (charListLt_cons_iff x z as cs).mpr (Or.inl (hxy ▸ h2))
          · exact (charListLt_cons_iff x z as cs).mpr
              (Or.inr ⟨hxy.trans hyz, ih bs cs h1 h2⟩)

theorem strLtB_irrefl (s : String) : strLtB s s = false := charListLt_irrefl s.data

theorem strLtB_trans (a b c : String)
    (hab : strLtB a b = true) (hbc : strLtB b c = true) : strLtB a c = true :=
  charListLt_trans a.data b.data c.data hab hbc

/-- A successful ISO parse starts with a digit character. -/
theorem parseIsoChars_digit (cs : List Char) (n : ℤ) (h : parseIsoChars cs = some n) :
    ∃ c rest, cs = c :: rest ∧ c.isDigit = true := by
  rw [parseIsoChars.eq_def] at h
  split at h
  · next y1 y2 y3 y4 h1 m1 m2 h2 d1 d2 =>
    refine ⟨y1, _, rfl, ?_⟩
    by_cases hd : ((h1 = '-' ∧ h2 = '-') ∧
        ([y1, y2, y3, y4, m1, m2, d1, d2].all Char.isDigit) = true)
    · have hall := hd.2
      simp only [List.all_cons, Bool.and_eq_true] at hall
      exact hall.1
    · rw [if_neg hd] at h
      simp at h
  · next => simp at h

/-- A string that parses as an ISO date starts with a digit, hence is
lexicographically below `"Unknown"`. -/
theorem strLtB_unknown_of_parse (s : String) (n : ℤ) (h : parseIsoDate s = some n) :
    strLtB s "Unknown" = true := by
  obtain ⟨c, rest, hs, hdig⟩ := parseIsoChars_digit s.data n h
  have hlt : c < 'U' := by
    simp only [Char.isDigit, Bool.and_eq_true, decide_eq_true_eq] at hdig
    rw [Char.lt_def]
    by_contra hc
    have hge : Char.val 'U' ≤ c.val := UInt32.not_lt.mp hc
    have hbad : Char.val 'U' ≤ (57 : UInt32) := UInt32.le_trans hge hdig.2
    exact absurd hbad (by decide)
  show charListLt s.data "Unknown".data = true
  rw [hs]
  exact (charListLt_cons_iff c 'U' _ _).mpr (Or.inl hlt)

/-! ## Claim theorems -/

/-- C2: every record surviving `normalizeData` has positive quantity or
positive amount, and a record with quantity 0 and amount 0 never appears in
the output (hence in no downstream aggregation, all of which consume this
output). -/
theorem claim_C2 (rows : List RawRow) :
    (∀ r ∈ normalizeData rows, 0 < r.Quantity ∨ 0 < r.Amount) ∧
    (∀ r : SalesRecord, r.Quantity = 0 → r.Amount = 0 → r ∉ normalizeData rows) := by
  constructor
  · intro r hr
    have h := (List.mem_filter.mp hr).2
    exact of_decide_eq_true h
  · intro r hq ha hr
    have h := of_decide_eq_true (List.mem_filter.mp hr).2
    rcases h with h | h
    · rw [hq] at h
      exact lt_irrefl 0 h
    · rw [ha] at h
      exact lt_irrefl 0 h

/-- A one-row sample batch for the C2 witness. -/
def c2SampleBatch : List RawRow :=
  [[("Date", JSVal.str "2024-01-05"), ("Product", JSVal.str "LG Fridge X"),
    ("Qty", JSVal.num 2), ("Amount", JSVal.num 40000)]]

/-- The record the sample batch normalizes to. -/
def c2GoodRecord : SalesRecord :=
  { Date := "2024-01-05", Category := "未分類", Product := "LG Fridge X",
    Quantity := 2, Amount := 40000, Cost := none, Brand := "LG 樂金", isGift := false }

/-- A zero-quantity, zero-amount record. -/
def c2ZeroRecord : SalesRecord :=
  { Date := "Unknown", Category := "未分類", Product := "x", Quantity := 0,
    Amount := 0, Cost := none, Brand := "Other 其他", isGift := true }

/-- Witness for C2 at a concrete batch: the surviving record of a one-row
batch has positive quantity or amount, and a zero/zero record is not in the
output. -/
theorem claim_C2_witness :
    (0 < c2GoodRecord.Quantity ∨ 0 < c2GoodRecord.Amount) ∧
    c2ZeroRecord ∉ normalizeData c2SampleBatch :=
  ⟨(claim_C2 c2SampleBatch).1 c2GoodRecord (by decide),
   (claim_C2 c2SampleBatch).2 c2ZeroRecord rfl rfl⟩

/-- C5: `forecastNextMonth` is total; the empty series yields the explicit
all-zero result with STABLE trend and LOW confidence, and for every series
the confidence is HIGH for at least 6 months, LOW for fewer than 3, MEDIUM
otherwise (so fewer than 3 months always yields LOW, never an exception). -/
theorem claim_C5 :
    (forecastNextMonth [] =
      { nextMonthRevenue := 0, nextMonthQty := 0, trend := .STABLE, trendPercent := 0,
        confidence := .LOW, method := "無歷史數據" }) ∧
    ∀ s : List SeasonalityData,
      (forecastNextMonth s).confidence =
        (if 6 ≤ s.length then .HIGH else if s.length < 3 then .LOW else .MEDIUM) := by
  refine ⟨rfl, ?_⟩
  intro s
  by_cases h0 : s.length = 0
  · rw [forecastNextMonth, if_pos h0]
    rw [if_neg (by omega), if_pos (by omega)]
  · rw [forecastNextMonth, if_neg h0]

/-- C7 counterexample: a raw row whose detected date value is the number 0
is normalized to the literal `"Unknown"`, not to the serial-date rendering
(`1899-12-30`) the claim requires for every numeric date value. -/
theorem claim_C7_counterexample :
    getVal [("date", JSVal.num 0), ("qty", JSVal.num 1)] datePatterns = JSVal.num 0 ∧
    (normalizeRow [("date", JSVal.num 0), ("qty", JSVal.num 1)]).Date = "Unknown" ∧
    "Unknown" ≠ isoDateString (⌊(0 : ℚ)⌋ - 25569) := by decide

/-- C7 (amended): a truthy (nonzero) numeric date value is rendered as the
spreadsheet-serial date `⌊d⌋ - 25569` days from the Unix epoch; a nonempty
string that parses as a date is re-rendered as `YYYY-MM-DD`, an unparseable
nonempty string passes through verbatim; an absent, zero-numeric, or
empty-string date value yields the literal `"Unknown"`. -/
theorem claim_C7_amended (row : RawRow) :
    (∀ d : ℚ, getVal row datePatterns = JSVal.num d → d ≠ 0 →
      (normalizeRow row).Date = isoDateString (⌊d⌋ - 25569)) ∧
    (∀ s : String, getVal row datePatterns = JSVal.str s → s ≠ "" →
      (normalizeRow row).Date =
        (match parseIsoDate s with
          | some n => isoDateString n
          | none => s)) ∧
    (getVal row datePatterns = JSVal.null → (normalizeRow row).Date = "Unknown") ∧
    (∀ d : ℚ, getVal row datePatterns = JSVal.num d → d = 0 →
      (normalizeRow row).Date = "Unknown") ∧
    (getVal row datePatterns = JSVal.str "" → (normalizeRow row).Date = "Unknown") := by
  have hdate : (normalizeRow row).Date = normalizeDateVal (getVal row datePatterns) := rfl
  refine ⟨?_, ?_, ?_, ?_, ?_⟩
  · intro d hg hd
    rw [hdate, hg]
    simp [normalizeDateVal, JSVal.truthy, hd]
  · intro s hg hs
    rw [hdate, hg]
    simp [normalizeDateVal, JSVal.truthy, hs]
  · intro hg
    rw [hdate, hg]
    simp [normalizeDateVal, JSVal.truthy]
  · intro d hg hd
    rw [hdate, hg, hd]
    simp [normalizeDateVal, JSVal.truthy]
  · intro hg
    rw [hdate, hg]
    simp [normalizeDateVal, JSVal.truthy]

/-- Witness for the amended C7 at concrete rows: serial 45295 renders as
2024-01-04, an unparseable string passes through, a valid date string is
re-rendered, and an absent date yields "Unknown". -/
theorem claim_C7_amended_witness :
    (normalizeRow [("date", JSVal.num 45295)]).Date = "2024-01-04" ∧
    (normalizeRow [("date", JSVal.str "garbage!")]).Date = "garbage!" ∧
    (normalizeRow [("date", JSVal.str "2024-02-29")]).Date = "2024-02-29" ∧
    (normalizeRow [("qty", JSVal.num 1)]).Date = "Unknown" := by
  refine ⟨?_, ?_, ?_, ?_⟩
  · rw [(claim_C7_amended [("date", JSVal.num 45295)]).1 45295 (by decide) (by decide)]
    decide
  · rw [(claim_C7_amended [("date", JSVal.str "garbage!")]).2.1 "garbage!" (by decide)
      (by decide)]
    decide
  · rw [(claim_C7_amended [("date", JSVal.str "2024-02-29")]).2.1 "2024-02-29" (by decide)
      (by decide)]
    decide
  · exact (claim_C7_amended [("qty", JSVal.num 1)]).2.2.1 (by decide)

/-- The running last-sale maximum never falls below a bound it already
dominates. -/
theorem slow_fold_preserve (rs : List SalesRecord) (b : SlowAcc) (d : String)
    (hb : strLtB b.lastSale d = false) :
    strLtB (rs.foldl slowUpd b).lastSale d = false := by
  induction rs generalizing b with
  | nil => exact hb
  | cons x t ih =>
    simp only [List.foldl_cons]
    apply ih
    unfold slowUpd
    cases hlt : strLtB b.lastSale x.Date with
    | true =>
      simp only [hlt, if_pos]
      cases hxd : strLtB x.Date d with
      | true => exact absurd (strLtB_trans _ _ _ hlt hxd) (by rw [hb]; simp)
      | false => rfl
    | false => simp [hlt, hb]

/-- The running last-sale maximum dominates every processed record's date. -/
theorem slow_fold_ge_mem (rs : List SalesRecord) (b : SlowAcc) (r : SalesRecord)
    (hr : r ∈ rs) : strLtB (rs.foldl slowUpd b).lastSale r.Date = false := by
  induction rs generalizing b with
  | nil => simp at hr
  | cons x t ih =>
    simp only [List.foldl_cons]
    rcases List.mem_cons.mp hr with rfl | hrt
    · apply slow_fold_preserve
      unfold slowUpd
      cases hlt : strLtB b.lastSale r.Date with
      | true => simp [hlt, strLtB_irrefl]
      | false => simp [hlt]
    · exact ih _ hrt

/-- The running last-sale maximum dominates its starting value. -/
theorem slow_fold_ge_start (rs : List SalesRecord) (b : SlowAcc) :
    strLtB (rs.foldl slowUpd b).lastSale b.lastSale = false :=
  slow_fold_preserve rs b b.lastSale (strLtB_irrefl _)

/-- C10: a product with at least one `"Unknown"`-dated record never appears
in `detectSlowMoving`'s output: `"Unknown"` dominates every `YYYY-MM-DD`
string in the lexicographic last-sale maximum, its parse is invalid, and the
threshold gate rejects the resulting `NaN` day count. -/
theorem claim_C10 (data : List SalesRecord) (thresholdDays : ℤ) (r : SalesRecord)
    (hr : r ∈ data) (hu : r.Date = "Unknown") :
    ∀ a ∈ detectSlowMoving data thresholdDays, a.productName ≠ r.Product := by
  intro a ha heq
  unfold detectSlowMoving at ha
  dsimp only at ha
  split at ha
  · simp at ha
  · next lastStr hmax =>
    rw [List.mem_insertionSort] at ha
    obtain ⟨e, he, hmk⟩ := List.mem_filterMap.mp ha
    -- the alert's product name is the entry's key
    have hkey : e.1 = a.productName := by
      unfold mkSlowAlert at hmk
      split at hmk
      · next g s hg hs =>
        by_cases hth : thresholdDays ≤ g - s
        · rw [if_pos hth] at hmk
          obtain rfl := Option.some.inj hmk
          rfl
        · rw [if_neg hth] at hmk
          exact absurd hmk (by simp)
      · next => exact absurd hmk (by simp)
    -- the entry's last-sale string parses (otherwise no alert is produced)
    obtain ⟨n, hparse⟩ : ∃ n, parseIsoDate e.2.lastSale = some n := by
      unfold mkSlowAlert at hmk
      split at hmk
      · next g s hg hs => exact ⟨s, hs⟩
      · next => exact absurd hmk (by simp)
    -- the entry's accumulated value is the fold over the product's records
    have hl := assocLookup_eq_of_mem_of_nodup _ e.1 e.2
      (groupList_keys_nodup (fun r => r.Product) slowInit slowUpd data) (by simpa using he)
    rw [groupList_assocLookup] at hl
    revert hl
    cases hf : data.filter (fun x => decide (x.Product = e.1)) with
    | nil => intro hl; simp at hl
    | cons r0 rs =>
      intro hl
      have hacc : e.2 = rs.foldl slowUpd (slowUpd (slowInit r0) r0) := by
        have := Option.some.inj hl
        exact this.symm
      -- the Unknown-dated record is among the product's records
      have hrf : r ∈ data.filter (fun x => decide (x.Product = e.1)) := by
        rw [List.mem_filter]
        refine ⟨hr, ?_⟩
        rw [hkey, heq]
        simp
      rw [hf] at hrf
      -- hence the accumulated last-sale dominates "Unknown"
      have hge : strLtB e.2.lastSale "Unknown" = false := by
        rcases List.mem_cons.mp hrf with rfl | hmem
        · have hbase : (slowUpd (slowInit r) r).lastSale = "Unknown" := by
            simp [slowUpd, slowInit, strLtB_irrefl, hu]
          rw [hacc]
          have := slow_fold_ge_start rs (slowUpd (slowInit r) r)
          rwa [hbase] at this
        · rw [hacc, ← hu]
          exact slow_fold_ge_mem rs _ r hmem
      -- but a parseable date is strictly below "Unknown"
      rw [strLtB_unknown_of_parse e.2.lastSale n hparse] at hge
      simp at hge

/-- C4: with the default threshold 30, every emitted alert is at least 30
days stale and carries risk HIGH (≥ 60 days, liquidate/halt recommendation)
or MEDIUM (30–59 days, promote/discount recommendation); the LOW tier is
unreachable. -/
theorem claim_C4 (data : List SalesRecord) :
    ∀ a ∈ detectSlowMoving data 30,
      30 ≤ a.daysSinceLastSale ∧
      ((60 ≤ a.daysSinceLastSale ∧ a.riskLevel = .HIGH ∧
          a.recommendation = "建議立即清倉或停止進貨") ∨
        (30 ≤ a.daysSinceLastSale ∧ a.daysSinceLastSale < 60 ∧ a.riskLevel = .MEDIUM ∧
          a.recommendation = "建議促銷活動或降價處理")) ∧
      a.riskLevel ≠ .LOW := by
  intro a ha
  unfold detectSlowMoving at ha
  dsimp only at ha
  split at ha
  · simp at ha
  · next lastStr hmax =>
    rw [List.mem_insertionSort] at ha
    obtain ⟨e, he, hmk⟩ := List.mem_filterMap.mp ha
    unfold mkSlowAlert at hmk
    split at hmk
    · next g s hg hs =>
      by_cases hth : (30 : ℤ) ≤ g - s
      · rw [if_pos hth] at hmk
        obtain rfl := Option.some.inj hmk
        by_cases h60 : (60 : ℤ) ≤ g - s
        · exact ⟨hth, Or.inl ⟨h60, by simp [h60], by simp [h60]⟩, by simp [h60]⟩
        · refine ⟨hth, Or.inr ⟨hth, by dsimp only; omega, ?_, ?_⟩, ?_⟩
          · simp [h60, hth]
          · simp [h60, hth]
          · simp [h60, hth]
      · rw [if_neg hth] at hmk
        exact absurd hmk (by simp)
    · next => exact absurd hmk (by simp)

/-- Sample data for the C4 witness: product Q last sold 2023-12-01, dataset
last date 2024-03-01. -/
def c4Data : List SalesRecord :=
  [{ Date := "2023-12-01", Category := "c", Product := "Q", Quantity := 1,
     Amount := 5, Cost := none, Brand := "Other 其他", isGift := false },
   { Date := "2024-03-01", Category := "c", Product := "R", Quantity := 1,
     Amount := 5, Cost := none, Brand := "Other 其他", isGift := false }]

/-- The alert `detectSlowMoving c4Data 30` emits. -/
def c4Alert : SlowMovingAlert :=
  { productName := "Q", category := "c", lastSaleDate := "2023-12-01",
    daysSinceLastSale := 91, totalQtyInPeriod := 1, riskLevel := .HIGH,
    recommendation := "建議立即清倉或停止進貨" }

/-- Witness for C4: the concrete 91-day-stale alert is emitted and is not
LOW risk. -/
theorem claim_C4_witness :
    c4Alert ∈ detectSlowMoving c4Data 30 ∧ c4Alert.riskLevel ≠ .LOW :=
  ⟨by decide, (claim_C4 c4Data c4Alert (by decide)).2.2⟩

/-- The "Unknown"-dated record of product P for the C10 witness. -/
def c10Unknown : SalesRecord :=
  { Date := "Unknown", Category := "c", Product := "P", Quantity := 1,
    Amount := 5, Cost := none, Brand := "Other 其他", isGift := false }

/-- Sample data for the C10 witness: P has an "Unknown"-dated record (and a
stale dated one), Q is genuinely stale, R provides the last date. -/
def c10Data : List SalesRecord :=
  [c10Unknown,
   { Date := "2023-12-01", Category := "c", Product := "P", Quantity := 1,
     Amount := 5, Cost := none, Brand := "Other 其他", isGift := false },
   { Date := "2023-12-01", Category := "c", Product := "Q", Quantity := 1,
     Amount := 5, Cost := none, Brand := "Other 其他", isGift := false },
   { Date := "2024-03-01", Category := "c", Product := "R", Quantity := 1,
     Amount := 5, Cost := none, Brand := "Other 其他", isGift := false }]

/-- The alert `detectSlowMoving c10Data 30` emits (for Q only). -/
def c10Alert : SlowMovingAlert :=
  { productName := "Q", category := "c", lastSaleDate := "2023-12-01",
    daysSinceLastSale := 91, totalQtyInPeriod := 1, riskLevel := .HIGH,
    recommendation := "建議立即清倉或停止進貨" }

/-- Witness for C10: the concrete run emits Q's alert but never one naming
P, the product with an "Unknown" record. -/
theorem claim_C10_witness :
    c10Alert ∈ detectSlowMoving c10Data 30 ∧ c10Alert.productName ≠ c10Unknown.Product :=
  ⟨by decide, claim_C10 c10Data 30 c10Unknown (by decide) rfl c10Alert (by decide)⟩

theorem assignABC_length (acc : ℚ) (l : List ProductPerformance) :
    (assignABC acc l).length = l.length := by
  induction l generalizing acc with
  | nil => rfl
  | cons x t ih => simp [assignABC, ih]

theorem assignABC_map_amountShare (acc : ℚ) (l : List ProductPerformance) :
    (assignABC acc l).map (fun p => p.amountShare) = l.map (fun p => p.amountShare) := by
  induction l generalizing acc with
  | nil => rfl
  | cons x t ih => simp [assignABC, ih]

theorem assignABC_map_totalAmount (acc : ℚ) (l : List ProductPerformance) :
    (assignABC acc l).map (fun p => p.totalAmount) = l.map (fun p => p.totalAmount) := by
  induction l generalizing acc with
  | nil => rfl
  | cons x t ih => simp [assignABC, ih]

theorem assignABC_get_cumulative (acc : ℚ) (l : List ProductPerformance) :
    ∀ (i : ℕ) (h : i < (assignABC acc l).length),
      ((assignABC acc l).get ⟨i, h⟩).cumulativeShare =
        acc + (((assignABC acc l).take (i + 1)).map (fun p => p.amountShare)).sum := by
  induction l generalizing acc with
  | nil => intro i h; simp [assignABC] at h
  | cons x t ih =>
    intro i h
    cases i with
    | zero => simp [assignABC]
    | succ j =>
      have h2 : j < (assignABC (acc + x.amountShare) t).length := by
        have := h
        simp only [assignABC, List.length_cons] at this
        omega
      have hstep :
          ((assignABC acc (x :: t)).get ⟨j + 1, h⟩).cumulativeShare =
            ((assignABC (acc + x.amountShare) t).get ⟨j, h2⟩).cumulativeShare := rfl
      rw [hstep, ih (acc + x.amountShare) j h2]
      simp only [assignABC, List.take_succ_cons, List.map_cons, List.sum_cons]
      ring_nf

theorem assignABC_class (acc : ℚ) (l : List ProductPerformance) :
    ∀ p ∈ assignABC acc l,
      p.abcClass =
        (if p.cumulativeShare ≤ 80 then ABCClass.A
          else if p.cumulativeShare ≤ 95 then ABCClass.B else ABCClass.C) := by
  induction l generalizing acc with
  | nil => intro p hp; simp [assignABC] at hp
  | cons x t ih =>
    intro p hp
    simp only [assignABC] at hp
    rcases List.mem_cons.mp hp with rfl | hp
    · rfl
    · exact ih _ p hp

theorem assignABC_mem_name (acc : ℚ) (l : List ProductPerformance) :
    ∀ p ∈ assignABC acc l, ∃ q ∈ l, q.productName = p.productName := by
  induction l generalizing acc with
  | nil => intro p hp; simp [assignABC] at hp
  | cons x t ih =>
    intro p hp
    simp only [assignABC] at hp
    rcases List.mem_cons.mp hp with rfl | hp
    · exact ⟨x, List.mem_cons_self x t, rfl⟩
    · obtain ⟨q, hq, hname⟩ := ih _ p hp
      exact ⟨q, List.mem_cons_of_mem x hq, hname⟩

theorem list_sum_div_mul {β : Type} (l : List β) (f : β → ℚ) (T c : ℚ) :
    (l.map (fun e => f e / T * c)).sum = (l.map f).sum / T * c := by
  induction l with
  | nil => simp
  | cons x t ih =>
    simp only [List.map_cons, List.sum_cons, ih]
    ring

/-- The grouped entries' total amounts sum to the dataset's total amount. -/
theorem perf_sum_totalAmount (data : List SalesRecord) :
    ((groupList (fun r => r.Product) perfInit perfUpd data).map
      (fun e => e.2.totalAmount)).sum = (data.map (fun r => r.Amount)).sum :=
  sum_groupList (fun r => r.Product) perfInit perfUpd
    (fun p => p.totalAmount) (fun r => r.Amount) data (fun _ => rfl) (fun _ _ => rfl)

set_option maxHeartbeats 1000000 in
/-- C1: when the dataset's total amount is positive, `analyzePerformance`
sorts products descending by total amount, each entry's cumulative share is
the running sum of amount shares up to it, the shares sum to exactly 100 (so
the last cumulative share is 100), and the ABC class of every entry follows
the 80/95 thresholds on its cumulative share. -/
theorem claim_C1 (data : List SalesRecord)
    (hT : 0 < (data.map (fun r => r.Amount)).sum) :
    List.Pairwise (fun a b => b.totalAmount ≤ a.totalAmount) (analyzePerformance data) ∧
    ((analyzePerformance data).map (fun p => p.amountShare)).sum = 100 ∧
    (∀ (i : ℕ) (h : i < (analyzePerformance data).length),
      ((analyzePerformance data).get ⟨i, h⟩).cumulativeShare =
        (((analyzePerformance data).take (i + 1)).map (fun p => p.amountShare)).sum) ∧
    (∀ h : analyzePerformance data ≠ [],
      ((analyzePerformance data).getLast h).cumulativeShare = 100) ∧
    (∀ p ∈ analyzePerformance data,
      p.abcClass =
        (if p.cumulativeShare ≤ 80 then ABCClass.A
          else if p.cumulativeShare ≤ 95 then ABCClass.B else ABCClass.C)) := by
  have hout : analyzePerformance data =
      assignABC 0 (((groupList (fun r => r.Product) perfInit perfUpd data).map
          (mkPerfEntry ((data.map (fun r => r.Amount)).sum))).insertionSort
        (descBy (fun p => p.totalAmount))) := rfl
  have hsum : ((analyzePerformance data).map (fun p => p.amountShare)).sum = 100 := by
    rw [hout, assignABC_map_amountShare]
    have hperm := List.perm_insertionSort (descBy (fun p : ProductPerformance => p.totalAmount))
      ((groupList (fun r => r.Product) perfInit perfUpd data).map
        (mkPerfEntry ((data.map (fun r => r.Amount)).sum)))
    rw [((hperm.map (fun p => p.amountShare))).sum_eq]
    rw [List.map_map]
    have hshare : ((fun p => p.amountShare) ∘
        mkPerfEntry ((data.map (fun r => r.Amount)).sum)) =
        (fun e => e.2.totalAmount / (data.map (fun r => r.Amount)).sum * 100) := by
      funext e
      simp [mkPerfEntry, if_pos hT]
    rw [hshare, list_sum_div_mul, perf_sum_totalAmount,
      div_self (ne_of_gt hT), one_mul]
  have hcum : ∀ (i : ℕ) (h2 : i < (analyzePerformance data).length),
      ((analyzePerformance data).get ⟨i, h2⟩).cumulativeShare =
        (((analyzePerformance data).take (i + 1)).map (fun p => p.amountShare)).sum := by
    intro i h2
    have h3 : i < (assignABC 0 (((groupList (fun r => r.Product) perfInit perfUpd data).map
        (mkPerfEntry ((data.map (fun r => r.Amount)).sum))).insertionSort
        (descBy (fun p => p.totalAmount)))).length := hout ▸ h2
    have h4 := assignABC_get_cumulative 0
      (((groupList (fun r => r.Product) perfInit perfUpd data).map
        (mkPerfEntry ((data.map (fun r => r.Amount)).sum))).insertionSort
        (descBy (fun p => p.totalAmount))) i h3
    rw [zero_add] at h4
    exact h4
  refine ⟨?_, hsum, hcum, ?_, ?_⟩
  · -- sortedness, transferred through assignABC
    have hsorted := List.sorted_insertionSort (r := descBy (fun p : ProductPerformance => p.totalAmount))
      ((groupList (fun r => r.Product) perfInit perfUpd data).map
        (mkPerfEntry ((data.map (fun r => r.Amount)).sum)))
    have hpair : List.Pairwise (fun x y : ℚ => y ≤ x)
        ((analyzePerformance data).map (fun p => p.totalAmount)) := by
      rw [hout, assignABC_map_totalAmount]
      exact (List.pairwise_map).mpr hsorted
    exact (List.pairwise_map).mp hpair
  · intro h
    have hlen : 0 < (analyzePerformance data).length := List.length_pos.mpr h
    have h2 := hcum ((analyzePerformance data).length - 1) (by omega)
    calc ((analyzePerformance data).getLast h).cumulativeShare
        = ((analyzePerformance data).get
            ⟨(analyzePerformance data).length - 1, by omega⟩).cumulativeShare := by
          rw [List.getLast_eq_get]
      _ = (((analyzePerformance data).take
            ((analyzePerformance data).length - 1 + 1)).map (fun p => p.amountShare)).sum := h2
      _ = 100 := by
          rw [show (analyzePerformance data).length - 1 + 1 =
            (analyzePerformance data).length by omega, List.take_length]
          exact hsum
  · intro p hp
    rw [hout] at hp
    exact assignABC_class 0 _ p hp

/-- Sample data for the C1 witness: two products with amounts 60000 and
40000. -/
def c1Data : List SalesRecord :=
  [{ Date := "2024-01-05", Category := "c", Product := "A", Quantity := 2,
     Amount := 60000, Cost := none, Brand := "Other 其他", isGift := false },
   { Date := "2024-01-06", Category := "c", Product := "B", Quantity := 1,
     Amount := 40000, Cost := none, Brand := "Other 其他", isGift := false }]

/-- Witness for C1: on the concrete two-product dataset the amount shares
sum to exactly 100. -/
theorem claim_C1_witness :
    ((analyzePerformance c1Data).map (fun p => p.amountShare)).sum = 100 :=
  (claim_C1 c1Data (by decide)).2.1

theorem perf_fold_name (rs : List SalesRecord) (b : ProductPerformance) :
    (rs.foldl perfUpd b).productName = b.productName := by
  induction rs generalizing b with
  | nil => rfl
  | cons x t ih => simp only [List.foldl_cons]; rw [ih]; rfl

/-- C9: every key of every aggregation view is contributed by some input
record — products in the performance view, months in the seasonality view,
brands in the brand view, and price bands in the price-band view all come
from at least one record of the (sub)set being analyzed. -/
theorem claim_C9 (data : List SalesRecord) :
    (∀ p ∈ analyzePerformance data, ∃ r ∈ data, r.Product = p.productName) ∧
    (∀ m ∈ analyzeSeasonality data, ∃ r ∈ data, monthKey r.Date = m.month) ∧
    (∀ b ∈ analyzeBrands data, ∃ r ∈ data, r.Brand = b.brand) ∧
    (∀ pb ∈ analyzePriceBands data, ∃ r ∈ data, recBand r = pb.range) := by
  refine ⟨?_, ?_, ?_, ?_⟩
  · intro p hp
    obtain ⟨q, hq, hname⟩ := assignABC_mem_name 0 _ p hp
    rw [List.mem_insertionSort] at hq
    obtain ⟨e, he, hmk⟩ := List.mem_map.mp hq
    -- the entry value carries the first matching record's product name
    have hl := assocLookup_eq_of_mem_of_nodup _ e.1 e.2
      (groupList_keys_nodup (fun r => r.Product) perfInit perfUpd data) (by simpa using he)
    rw [groupList_assocLookup] at hl
    revert hl
    cases hf : data.filter (fun x => decide (x.Product = e.1)) with
    | nil => intro hl; simp at hl
    | cons r0 rs =>
      intro hl
      have hacc : e.2 = rs.foldl perfUpd (perfUpd (perfInit r0) r0) :=
        (Option.some.inj hl).symm
      have hr0 : r0 ∈ data.filter (fun x => decide (x.Product = e.1)) := by
        rw [hf]; exact List.mem_cons_self r0 rs
      rw [List.mem_filter] at hr0
      refine ⟨r0, hr0.1, ?_⟩
      have hn : e.2.productName = r0.Product := by
        rw [hacc, perf_fold_name]
        rfl
      have hq2 : q.productName = e.2.productName := by
        rw [← hmk]
        rfl
      rw [← hname, hq2, hn]
  · intro m hm
    unfold analyzeSeasonality at hm
    rw [List.mem_insertionSort] at hm
    obtain ⟨e, he, hmk⟩ := List.mem_map.mp hm
    have hmonth : m.month = e.1 := by rw [← hmk]
    obtain ⟨r, hr, hkey⟩ := groupList_keys_sub _ _ _ data e.1
      (List.mem_map.mpr ⟨e, he, rfl⟩)
    exact ⟨r, hr, by rw [hkey, hmonth]⟩
  · intro b hb
    unfold analyzeBrands at hb
    rw [List.mem_insertionSort] at hb
    obtain ⟨e, he, hmk⟩ := List.mem_map.mp hb
    have hbrand : b.brand = e.1 := by rw [← hmk]
    obtain ⟨r, hr, hkey⟩ := groupList_keys_sub _ _ _ data e.1
      (List.mem_map.mpr ⟨e, he, rfl⟩)
    exact ⟨r, hr, by rw [hkey, hbrand]⟩
  · intro pb hpb
    unfold analyzePriceBands at hpb
    rw [List.mem_insertionSort] at hpb
    obtain ⟨e, he, hmk⟩ := List.mem_map.mp hpb
    have hrange : pb.range = e.1 := by rw [← hmk]
    obtain ⟨r, hr, hkey⟩ := groupList_keys_sub _ _ _ data e.1
      (List.mem_map.mpr ⟨e, he, rfl⟩)
    exact ⟨r, hr, by rw [hkey, hrange]⟩

/-- The top performance row of `analyzePerformance c1Data`. -/
def c9Perf : ProductPerformance :=
  { productName := "A", category := "c", totalQty := 2, totalAmount := 60000,
    averagePrice := 30000, qtyShare := 0, amountShare := 60, cumulativeShare := 60,
    abcClass := .A, salesFrequency := 1, velocityScore := 7 / 2 }

/-- The single month row of `analyzeSeasonality c1Data`. -/
def c9Season : SeasonalityData :=
  { month := "2024-01", sales := 3, revenue := 100000, topCategory := "c" }

/-- The single brand row of `analyzeBrands c1Data`. -/
def c9Brand : BrandMetric :=
  { brand := "Other 其他", revenue := 100000, salesCount := 3, percentage := 100 }

/-- The first band row of `analyzePriceBands c1Data`. -/
def c9Band : PriceBandMetric :=
  { range := "高階 (25k-40k)", salesCount := 2, revenue := 60000, percent := 60 }

/-- Witness for C9 at a concrete dataset: a row of each view, each traced to
a contributing record. -/
theorem claim_C9_witness :
    (∃ r ∈ c1Data, r.Product = c9Perf.productName) ∧
    (∃ r ∈ c1Data, monthKey r.Date = c9Season.month) ∧
    (∃ r ∈ c1Data, r.Brand = c9Brand.brand) ∧
    (∃ r ∈ c1Data, recBand r = c9Band.range) :=
  ⟨(claim_C9 c1Data).1 c9Perf (by decide),
   (claim_C9 c1Data).2.1 c9Season (by decide),
   (claim_C9 c1Data).2.2.1 c9Brand (by decide),
   (claim_C9 c1Data).2.2.2 c9Band (by decide)⟩

/-- Every record emitted by the dedup pass has a key outside the seen set. -/
theorem dedupGo_key_not_seen (rows : List RawRow) :
    ∀ (seen : List String) (r : SalesRecordV2),
      r ∈ normalizeDedupGo seen rows → rowKeyV2 r ∉ seen := by
  induction rows with
  | nil => intro seen r hmem; simp [normalizeDedupGo] at hmem
  | cons row rest ih =>
    intro seen r hmem
    simp only [normalizeDedupGo] at hmem
    by_cases hc : seen.contains (rowKeyV2 (normalizeRowV2 row)) = true
    · rw [if_pos hc] at hmem
      exact ih seen r hmem
    · rw [if_neg hc] at hmem
      by_cases hq : 0 < (normalizeRowV2 row).Quantity ∨ 0 < (normalizeRowV2 row).Amount
      · rw [if_pos hq] at hmem
        rcases List.mem_cons.mp hmem with rfl | hmem2
        · intro hin
          exact hc ((contains_true_iff_mem _ _).mpr hin)
        · intro hin
          exact ih _ r hmem2 (List.mem_cons_of_mem _ hin)
      · rw [if_neg hq] at hmem
        intro hin
        exact ih _ r hmem (List.mem_cons_of_mem _ hin)

/-- The emitted records' key strings are pairwise distinct. -/
theorem dedupGo_keys_nodup (rows : List RawRow) :
    ∀ seen : List String, ((normalizeDedupGo seen rows).map rowKeyV2).Nodup := by
  induction rows with
  | nil => intro seen; simp [normalizeDedupGo]
  | cons row rest ih =>
    intro seen
    simp only [normalizeDedupGo]
    by_cases hc : seen.contains (rowKeyV2 (normalizeRowV2 row)) = true
    · rw [if_pos hc]
      exact ih seen
    · rw [if_neg hc]
      by_cases hq : 0 < (normalizeRowV2 row).Quantity ∨ 0 < (normalizeRowV2 row).Amount
      · rw [if_pos hq]
        simp only [List.map_cons, List.nodup_cons]
        refine ⟨?_, ih _⟩
        intro hin
        obtain ⟨r, hr, hkeq⟩ := List.mem_map.mp hin
        have := dedupGo_key_not_seen rest _ r hr
        rw [hkeq] at this
        exact this (List.mem_cons_self _ _)
      · rw [if_neg hq]
        exact ih _


/-- Every emitted record originates from an input row none of whose earlier
rows shares its key. -/
theorem dedupGo_origin (rows : List RawRow) :
    ∀ (seen : List String) (r : SalesRecordV2), r ∈ normalizeDedupGo seen rows →
      ∃ pre row post, rows = pre ++ row :: post ∧ normalizeRowV2 row = r ∧
        ∀ p ∈ pre, rowKeyV2 (normalizeRowV2 p) ≠ rowKeyV2 r := by
  induction rows with
  | nil => intro seen r hmem; simp [normalizeDedupGo] at hmem
  | cons row rest ih =>
    intro seen r hmem
    simp only [normalizeDedupGo] at hmem
    by_cases hc : seen.contains (rowKeyV2 (normalizeRowV2 row)) = true
    · rw [if_pos hc] at hmem
      obtain ⟨pre, row2, post, heq, hnorm, hpre⟩ := ih seen r hmem
      refine ⟨row :: pre, row2, post, by rw [heq]; rfl, hnorm, ?_⟩
      intro p hp
      rcases List.mem_cons.mp hp with rfl | hp2
      · intro hkeq
        have hnot := dedupGo_key_not_seen rest seen r hmem
        rw [← hkeq] at hnot
        exact hnot ((contains_true_iff_mem _ _).mp hc)
      · exact hpre p hp2
    · rw [if_neg hc] at hmem
      by_cases hq : 0 < (normalizeRowV2 row).Quantity ∨ 0 < (normalizeRowV2 row).Amount
      · rw [if_pos hq] at hmem
        rcases List.mem_cons.mp hmem with rfl | hmem2
        · exact ⟨[], row, rest, rfl, rfl, by simp⟩
        · obtain ⟨pre, row2, post, heq, hnorm, hpre⟩ := ih _ r hmem2
          refine ⟨row :: pre, row2, post, by rw [heq]; rfl, hnorm, ?_⟩
          intro p hp
          rcases List.mem_cons.mp hp with rfl | hp2
          · intro hkeq
            have hnot := dedupGo_key_not_seen rest _ r hmem2
            rw [← hkeq] at hnot
            exact hnot (List.mem_cons_self _ _)
          · exact hpre p hp2
      · rw [if_neg hq] at hmem
        obtain ⟨pre, row2, post, heq, hnorm, hpre⟩ := ih _ r hmem
        refine ⟨row :: pre, row2, post, by rw [heq]; rfl, hnorm, ?_⟩
        intro p hp
        rcases List.mem_cons.mp hp with rfl | hp2
        · intro hkeq
          have hnot := dedupGo_key_not_seen rest _ r hmem
          rw [← hkeq] at hnot
          exact hnot (List.mem_cons_self _ _)
        · exact hpre p hp2

/-- Equal key tuples give equal key strings. -/
theorem keyTuple_congr (a b : SalesRecordV2) (h : keyTuple a = keyTuple b) :
    rowKeyV2 a = rowKeyV2 b := by
  unfold keyTuple at h
  simp only [Prod.mk.injEq] at h
  unfold rowKeyV2
  rw [h.1, h.2.1, h.2.2.1, h.2.2.2]

/-- C8: the deduplicating normalizer emits at most one record per composite
key (normalized date, product, quantity, amount) — output keys are pairwise
distinct — and every emitted record comes from the first input row bearing
its key: no earlier row shares it, and all later rows with the same key are
discarded. -/
theorem claim_C8 (rows : List RawRow) :
    List.Pairwise (fun a b => keyTuple a ≠ keyTuple b) (normalizeDataDedup rows) ∧
    ∀ r ∈ normalizeDataDedup rows, ∃ pre row post,
      rows = pre ++ row :: post ∧ normalizeRowV2 row = r ∧
      ∀ p ∈ pre, keyTuple (normalizeRowV2 p) ≠ keyTuple r := by
  constructor
  · have hnd := dedupGo_keys_nodup rows []
    have hpw : List.Pairwise (fun a b => rowKeyV2 a ≠ rowKeyV2 b) (normalizeDedupGo [] rows) :=
      (List.pairwise_map).mp hnd
    exact hpw.imp (fun hne ht => hne (keyTuple_congr _ _ ht))
  · intro r hr
    obtain ⟨pre, row, post, heq, hnorm, hpre⟩ := dedupGo_origin rows [] r hr
    exact ⟨pre, row, post, heq, hnorm, fun p hp ht => hpre p hp (keyTuple_congr _ _ ht)⟩

/-- A three-row batch for the C8 witness: the second row is an exact
duplicate of the first. -/
def c8Rows : List RawRow :=
  [[("date", JSVal.str "2024-01-05"), ("name", JSVal.str "A"), ("qty", JSVal.num 1),
    ("amount", JSVal.num 10)],
   [("date", JSVal.str "2024-01-05"), ("name", JSVal.str "A"), ("qty", JSVal.num 1),
    ("amount", JSVal.num 10)],
   [("date", JSVal.str "2024-01-05"), ("name", JSVal.str "A"), ("qty", JSVal.num 2),
    ("amount", JSVal.num 10)]]

/-- The record the first row of `c8Rows` produces. -/
def c8Rec : SalesRecordV2 :=
  { Date := "2024-01-05", Category := "未分類", Product := "A", Quantity := 1,
    Amount := 10, Cost := none, Brand := "Other 其他" }

/-- Witness for C8 at the concrete batch: output keys are pairwise distinct
and the first row's record is traced to a first occurrence. -/
theorem claim_C8_witness :
    List.Pairwise (fun a b => keyTuple a ≠ keyTuple b) (normalizeDataDedup c8Rows) ∧
    (∃ pre row post, c8Rows = pre ++ row :: post ∧ normalizeRowV2 row = c8Rec ∧
      ∀ p ∈ pre, keyTuple (normalizeRowV2 p) ≠ keyTuple c8Rec) :=
  ⟨(claim_C8 c8Rows).1, (claim_C8 c8Rows).2 c8Rec (by decide)⟩

/-- A record carrying a defined, positive cost
(`r.Cost !== undefined && r.Cost > 0`). -/
def hasPositiveCost (r : SalesRecord) : Prop := ∃ c, r.Cost = some c ∧ 0 < c

instance : DecidablePred hasPositiveCost := fun r =>
  match hc : r.Cost with
  | some c =>
    decidable_of_iff (0 < c)
      ⟨fun h => ⟨c, hc, h⟩, fun he => by
        obtain ⟨c2, hc2, h2⟩ := he
        rw [hc] at hc2
        obtain rfl := Option.some.inj hc2
        exact h2⟩
  | none =>
    isFalse (fun he => by
      obtain ⟨c2, hc2, _⟩ := he
      rw [hc] at hc2
      exact Option.noConfusion hc2)

/-- The activation test of `analyzeProfitMargin` holds exactly when some
record carries a defined positive cost. -/
theorem hasCoat_iff (data : List SalesRecord) :
    (data.any (fun r => match r.Cost with
      | some c => decide (0 < c)
      | none => false) = true) ↔ ∃ r ∈ data, hasPositiveCost r := by
  rw [List.any_eq_true]
  constructor
  · rintro ⟨r, hr, hp⟩
    refine ⟨r, hr, ?_⟩
    cases hc : r.Cost with
    | some c =>
      rw [hc] at hp
      simp only [decide_eq_true_eq] at hp
      exact ⟨c, hc, hp⟩
    | none =>
      rw [hc] at hp
      simp at hp
  · rintro ⟨r, hr, c, hc, hpos⟩
    refine ⟨r, hr, ?_⟩
    rw [hc]
    simpa using hpos

theorem profit_fold_revenue (rs : List SalesRecord) (b : ProfitAcc) :
    (rs.foldl profitUpd b).revenue = b.revenue + (rs.map (fun r => r.Amount)).sum := by
  induction rs generalizing b with
  | nil => simp
  | cons x t ih =>
    simp only [List.foldl_cons, List.map_cons, List.sum_cons, ih]
    show b.revenue + x.Amount + _ = _
    ring

theorem profit_fold_cost (rs : List SalesRecord) (b : ProfitAcc) :
    (rs.foldl profitUpd b).cost =
      b.cost + (rs.map (fun r => (r.Cost).getD 0 * r.Quantity)).sum := by
  induction rs generalizing b with
  | nil => simp
  | cons x t ih =>
    simp only [List.foldl_cons, List.map_cons, List.sum_cons, ih]
    show b.cost + (x.Cost).getD 0 * x.Quantity + _ = _
    ring

/-- The grouped profit entry of a product is the sum of its records'
amounts and `cost · quantity` values. -/
theorem profit_entry_sums (data : List SalesRecord) (e : String × ProfitAcc)
    (he : e ∈ groupList (fun r => r.Product) profitInit profitUpd data) :
    e.2.revenue =
      ((data.filter (fun r => decide (r.Product = e.1))).map (fun r => r.Amount)).sum ∧
    e.2.cost =
      ((data.filter (fun r => decide (r.Product = e.1))).map
        (fun r => (r.Cost).getD 0 * r.Quantity)).sum := by
  have hl := assocLookup_eq_of_mem_of_nodup _ e.1 e.2
    (groupList_keys_nodup (fun r => r.Product) profitInit profitUpd data) (by simpa using he)
  rw [groupList_assocLookup] at hl
  revert hl
  cases hf : data.filter (fun x => decide (x.Product = e.1)) with
  | nil => intro hl; simp at hl
  | cons r0 rs =>
    intro hl
    have hacc : e.2 = rs.foldl profitUpd (profitUpd (profitInit r0) r0) :=
      (Option.some.inj hl).symm
    constructor
    · rw [hacc, profit_fold_revenue, List.map_cons, List.sum_cons]
      show (0 : ℚ) + r0.Amount + _ = _
      ring
    · rw [hacc, profit_fold_cost, List.map_cons, List.sum_cons]
      show (0 : ℚ) + (r0.Cost).getD 0 * r0.Quantity + _ = _
      ring

/-- A one-record dataset with a positive cost but zero revenue. -/
def c6Data : List SalesRecord :=
  [{ Date := "2024-01-05", Category := "c", Product := "P", Quantity := 1,
     Amount := 0, Cost := some 5, Brand := "Other 其他", isGift := true }]

/-- C6 counterexample: a record with a defined positive cost (so the
analyzer is activated) but zero revenue yields an empty result — refuting
"empty if and only if no input record carries a defined, positive cost". -/
theorem claim_C6_counterexample :
    (∃ r ∈ c6Data, hasPositiveCost r) ∧ analyzeProfitMargin c6Data = [] := by
  constructor
  · exact ⟨c6Data.head (by decide), by decide, 5, by decide, by decide⟩
  · decide

/-- C6 (amended): the output is empty if no record carries a defined
positive cost (the converse fails: it is also empty when cost data exists
but every product has zero revenue); a non-empty output implies some record
has a positive cost, and every entry has positive total revenue, gross
profit revenue − cost, margin percent `(revenue − cost)/revenue × 100`
rounded to one decimal, per-product sums of amount and cost·quantity, with
entries sorted descending by margin percent. -/
theorem claim_C6_amended (data : List SalesRecord) :
    ((¬ ∃ r ∈ data, hasPositiveCost r) → analyzeProfitMargin data = []) ∧
    (analyzeProfitMargin data ≠ [] → ∃ r ∈ data, hasPositiveCost r) ∧
    List.Pairwise (fun a b => b.marginPercent ≤ a.marginPercent)
      (analyzeProfitMargin data) ∧
    ∀ p ∈ analyzeProfitMargin data,
      0 < p.totalRevenue ∧
      p.grossProfit = p.totalRevenue - p.totalCost ∧
      p.marginPercent =
        (jsRound ((p.totalRevenue - p.totalCost) / p.totalRevenue * 1000) : ℚ) / 10 ∧
      p.totalRevenue =
        ((data.filter (fun r => decide (r.Product = p.productName))).map
          (fun r => r.Amount)).sum ∧
      p.totalCost =
        ((data.filter (fun r => decide (r.Product = p.productName))).map
          (fun r => (r.Cost).getD 0 * r.Quantity)).sum := by
  by_cases hc : (data.any (fun r => match r.Cost with
      | some c => decide (0 < c)
      | none => false) = true)
  · have hout : analyzeProfitMargin data =
        ((((groupList (fun r => r.Product) profitInit profitUpd data).map
          mkProfitEntry).filter (fun p => decide (0 < p.totalRevenue)))
        ).insertionSort (descBy (fun p => p.marginPercent)) := by
      unfold analyzeProfitMargin
      rw [if_pos hc]
    refine ⟨fun hno => absurd ((hasCoat_iff data).mp hc) hno,
      fun _ => (hasCoat_iff data).mp hc, ?_, ?_⟩
    · rw [hout]
      exact List.sorted_insertionSort
        (r := descBy (fun p : ProfitAnalysis => p.marginPercent)) _
    · intro p hp
      rw [hout, List.mem_insertionSort] at hp
      have hpos : 0 < p.totalRevenue := of_decide_eq_true (List.mem_filter.mp hp).2
      obtain ⟨e, he, hmk⟩ := List.mem_map.mp (List.mem_filter.mp hp).1
      obtain ⟨hrev, hcost⟩ := profit_entry_sums data e he
      have hname : p.productName = e.1 := by rw [← hmk]; rfl
      have hprev : p.totalRevenue = e.2.revenue := by rw [← hmk]; rfl
      have hpcost : p.totalCost = e.2.cost := by rw [← hmk]; rfl
      refine ⟨hpos, by rw [← hmk]; rfl, ?_, ?_, ?_⟩
      · have hpos2 : 0 < e.2.revenue := by rw [← hprev]; exact hpos
        have : p.marginPercent =
            (jsRound ((e.2.revenue - e.2.cost) / e.2.revenue * 1000) : ℚ) / 10 := by
          rw [← hmk]
          show (if 0 < e.2.revenue then _ else 0) = _
          rw [if_pos hpos2]
        rw [this, hprev, hpcost]
      · rw [hprev, hname]
        exact hrev
      · rw [hpcost, hname]
        exact hcost
  · have hout : analyzeProfitMargin data = [] := by
      unfold analyzeProfitMargin
      rw [if_neg hc]
    refine ⟨fun _ => hout, fun hne => absurd hout hne, ?_, ?_⟩
    · rw [hout]
      exact List.Pairwise.nil
    · intro p hp
      rw [hout] at hp
      simp at hp

/-- A dataset with cost data and positive revenue for the C6 witness. -/
def c6GoodData : List SalesRecord :=
  [{ Date := "2024-01-05", Category := "c", Product := "P", Quantity := 2,
     Amount := 1000, Cost := some 300, Brand := "Other 其他", isGift := false }]

/-- The profit row `analyzeProfitMargin c6GoodData` produces:
revenue 1000, cost 600, margin 40%. -/
def c6Profit : ProfitAnalysis :=
  { productName := "P", category := "c", totalRevenue := 1000, totalCost := 600,
    grossProfit := 400, marginPercent := 40 }

/-- Witness for the amended C6: the concrete no-cost dataset gives an empty
result, and the concrete costed dataset's row satisfies all per-entry
facts. -/
theorem claim_C6_amended_witness :
    analyzeProfitMargin c1Data = [] ∧ 0 < c6Profit.totalRevenue :=
  ⟨(claim_C6_amended c1Data).1 (by decide),
   ((claim_C6_amended c6GoodData).2.2.2 c6Profit (by decide)).1⟩

theorem sqrtCeilAux_spec (q : ℚ) : ∀ (fuel cur : ℕ),
    (∀ k < cur, ¬ q ≤ (k : ℚ) ^ 2) → q ≤ ((cur + fuel : ℕ) : ℚ) ^ 2 →
    q ≤ ((sqrtCeilAux q cur fuel : ℕ) : ℚ) ^ 2 ∧
      ∀ k < sqrtCeilAux q cur fuel, ¬ q ≤ ((k : ℕ) : ℚ) ^ 2 := by
  intro fuel
  induction fuel with
  | zero =>
    intro cur hmin hbound
    rw [sqrtCeilAux]
    exact ⟨by simpa using hbound, hmin⟩
  | succ f ih =>
    intro cur hmin hbound
    rw [sqrtCeilAux]
    by_cases hq : q ≤ (cur : ℚ) ^ 2
    · rw [if_pos hq]
      exact ⟨hq, hmin⟩
    · rw [if_neg hq]
      apply ih (cur + 1)
      · intro k hk
        rcases Nat.lt_succ_iff_lt_or_eq.mp hk with hk2 | rfl
        · exact hmin k hk2
        · exact hq
      · have he : cur + 1 + f = cur + (f + 1) := by omega
        rw [he]
        exact hbound

theorem sqrtCeil_spec (q : ℚ) :
    q ≤ ((sqrtCeil q : ℕ) : ℚ) ^ 2 ∧ ∀ k < sqrtCeil q, ¬ q ≤ ((k : ℕ) : ℚ) ^ 2 := by
  unfold sqrtCeil
  apply sqrtCeilAux_spec q ⌈max q 0⌉.toNat 0
  · intro k hk
    exact absurd hk (Nat.not_lt_zero k)
  · have h1 : q ≤ max q 0 := le_max_left q 0
    have h2 : max q 0 ≤ (⌈max q 0⌉ : ℚ) := Int.le_ceil _
    have h0 : (0 : ℤ) ≤ ⌈max q 0⌉ := Int.ceil_nonneg (le_max_right q 0)
    have h3 : ((⌈max q 0⌉.toNat : ℕ) : ℚ) = (⌈max q 0⌉ : ℚ) := by
      rw [show ((⌈max q 0⌉.toNat : ℕ) : ℚ) = ((⌈max q 0⌉.toNat : ℤ) : ℚ) by push_cast; ring,
        Int.toNat_of_nonneg h0]
    have hm : q ≤ ((⌈max q 0⌉.toNat : ℕ) : ℚ) := by
      rw [h3]
      exact le_trans h1 h2
    have hsq : ((⌈max q 0⌉.toNat : ℕ) : ℚ) ≤ ((⌈max q 0⌉.toNat : ℕ) : ℚ) ^ 2 := by
      rcases Nat.eq_zero_or_pos ⌈max q 0⌉.toNat with hz | hpos
      · rw [hz]
        norm_num
      · have hone : (1 : ℚ) ≤ ((⌈max q 0⌉.toNat : ℕ) : ℚ) := by exact_mod_cast hpos
        nlinarith
    have : q ≤ ((⌈max q 0⌉.toNat : ℕ) : ℚ) ^ 2 := le_trans hm hsq
    simpa using this

/-- `sqrtCeil q` is exactly `⌈√q⌉` (as integers). -/
theorem sqrtCeil_eq_ceil (q : ℚ) :
    (sqrtCeil q : ℤ) = ⌈Real.sqrt (q : ℝ)⌉ := by
  obtain ⟨hub, hmin⟩ := sqrtCeil_spec q
  symm
  rw [Int.ceil_eq_iff]
  constructor
  · cases hn : sqrtCeil q with
    | zero =>
      push_cast
      have := Real.sqrt_nonneg (q : ℝ)
      linarith
    | succ k =>
      have hk := hmin k (by omega)
      push_neg at hk
      have hk2 : ((k : ℝ)) ^ 2 < (q : ℝ) := by exact_mod_cast hk
      have hlt : (k : ℝ) < Real.sqrt (q : ℝ) :=
        (Real.lt_sqrt (by positivity)).mpr hk2
      push_cast
      linarith
  · have hq2 : (q : ℝ) ≤ ((sqrtCeil q : ℕ) : ℝ) ^ 2 := by exact_mod_cast hub
    calc Real.sqrt (q : ℝ) ≤ Real.sqrt (((sqrtCeil q : ℕ) : ℝ) ^ 2) := Real.sqrt_le_sqrt hq2
      _ = ((sqrtCeil q : ℕ) : ℝ) := Real.sqrt_sq (by positivity)
      _ = ((sqrtCeil q : ℤ) : ℝ) := by push_cast; ring

theorem sqrtRoundAux_spec (q : ℚ) : ∀ (fuel cur : ℕ),
    (∀ k < cur, ¬ 4 * q < (2 * (k : ℚ) + 1) ^ 2) →
    4 * q < (2 * ((cur + fuel : ℕ) : ℚ) + 1) ^ 2 →
    4 * q < (2 * ((sqrtRoundAux q cur fuel : ℕ) : ℚ) + 1) ^ 2 ∧
      ∀ k < sqrtRoundAux q cur fuel, ¬ 4 * q < (2 * ((k : ℕ) : ℚ) + 1) ^ 2 := by
  intro fuel
  induction fuel with
  | zero =>
    intro cur hmin hbound
    rw [sqrtRoundAux]
    exact ⟨by simpa using hbound, hmin⟩
  | succ f ih =>
    intro cur hmin hbound
    rw [sqrtRoundAux]
    by_cases hq : 4 * q < (2 * (cur : ℚ) + 1) ^ 2
    · rw [if_pos hq]
      exact ⟨hq, hmin⟩
    · rw [if_neg hq]
      apply ih (cur + 1)
      · intro k hk
        rcases Nat.lt_succ_iff_lt_or_eq.mp hk with hk2 | rfl
        · exact hmin k hk2
        · exact hq
      · have he : cur + 1 + f = cur + (f + 1) := by omega
        rw [he]
        exact hbound

theorem sqrtRound_spec (q : ℚ) :
    4 * q < (2 * ((sqrtRound q : ℕ) : ℚ) + 1) ^ 2 ∧
      ∀ k < sqrtRound q, ¬ 4 * q < (2 * ((k : ℕ) : ℚ) + 1) ^ 2 := by
  unfold sqrtRound
  apply sqrtRoundAux_spec q ⌈max q 0⌉.toNat 0
  · intro k hk
    exact absurd hk (Nat.not_lt_zero k)
  · have h1 : q ≤ max q 0 := le_max_left q 0
    have h2 : max q 0 ≤ (⌈max q 0⌉ : ℚ) := Int.le_ceil _
    have h0 : (0 : ℤ) ≤ ⌈max q 0⌉ := Int.ceil_nonneg (le_max_right q 0)
    have h3 : ((⌈max q 0⌉.toNat : ℕ) : ℚ) = (⌈max q 0⌉ : ℚ) := by
      rw [show ((⌈max q 0⌉.toNat : ℕ) : ℚ) = ((⌈max q 0⌉.toNat : ℤ) : ℚ) by push_cast; ring,
        Int.toNat_of_nonneg h0]
    have hm : q ≤ ((⌈max q 0⌉.toNat : ℕ) : ℚ) := by
      rw [h3]
      exact le_trans h1 h2
    have : 4 * q < (2 * ((⌈max q 0⌉.toNat : ℕ) : ℚ) + 1) ^ 2 := by nlinarith
    simpa using this

/-- `sqrtRound q` is exactly `round (√q)` (as integers). -/
theorem sqrtRound_eq_round (q : ℚ) :
    (sqrtRound q : ℤ) = round (Real.sqrt (q : ℝ)) := by
  obtain ⟨hub, hmin⟩ := sqrtRound_spec q
  rw [round_eq]
  symm
  rw [Int.floor_eq_iff]
  constructor
  · cases hn : sqrtRound q with
    | zero =>
      push_cast
      have := Real.sqrt_nonneg (q : ℝ)
      linarith
    | succ k =>
      have hk := hmin k (by omega)
      push_neg at hk
      have hk2 : (2 * (k : ℝ) + 1) ^ 2 ≤ 4 * (q : ℝ) := by exact_mod_cast hk
      have hq0 : (0 : ℝ) ≤ (q : ℝ) := by nlinarith
      have hle : (2 * (k : ℝ) + 1) / 2 ≤ Real.sqrt (q : ℝ) := by
        rw [Real.le_sqrt (by positivity) hq0]
        nlinarith
      push_cast
      linarith
  · have hub2 : 4 * (q : ℝ) < (2 * ((sqrtRound q : ℕ) : ℝ) + 1) ^ 2 := by exact_mod_cast hub
    have hlt : Real.sqrt (q : ℝ) < (2 * ((sqrtRound q : ℕ) : ℝ) + 1) / 2 := by
      rw [Real.sqrt_lt' (by positivity)]
      nlinarith
    push_cast
    linarith

/-- Population variance of a sample, exactly as the code computes it
(mean = sum/length, variance = mean of squared deviations). -/
def popVariance (qs : List ℚ) : ℚ :=
  (qs.map (fun x => (x - qs.sum / (qs.length : ℚ)) ^ 2)).sum / (qs.length : ℚ)

theorem popVariance_nonneg (qs : List ℚ) : 0 ≤ popVariance qs := by
  unfold popVariance
  apply div_nonneg
  · apply List.sum_nonneg
    intro x hx
    obtain ⟨y, -, rfl⟩ := List.mem_map.mp hx
    exact sq_nonneg _
  · exact Nat.cast_nonneg _

theorem inv_fold_qty (rs : List SalesRecord) (b : InvAcc) :
    (rs.foldl invUpd b).qty = b.qty ++ rs.map (fun r => r.Quantity) := by
  induction rs generalizing b with
  | nil => simp
  | cons x t ih =>
    simp only [List.foldl_cons, List.map_cons, ih]
    show (b.qty ++ [x.Quantity]) ++ _ = _
    simp

/-- The grouped inventory entry of a product carries exactly its records'
quantities, in order, and the matching record list is nonempty. -/
theorem inv_entry_qty (data : List SalesRecord) (e : String × InvAcc)
    (he : e ∈ groupList (fun r => r.Product) invInit invUpd data) :
    e.2.qty = (data.filter (fun r => decide (r.Product = e.1))).map
      (fun r => r.Quantity) ∧
    (data.filter (fun r => decide (r.Product = e.1))) ≠ [] := by
  have hl := assocLookup_eq_of_mem_of_nodup _ e.1 e.2
    (groupList_keys_nodup (fun r => r.Product) invInit invUpd data) (by simpa using he)
  rw [groupList_assocLookup] at hl
  revert hl
  cases hf : data.filter (fun x => decide (x.Product = e.1)) with
  | nil => intro hl; simp at hl
  | cons r0 rs =>
    intro hl
    have hacc : e.2 = rs.foldl invUpd (invUpd (invInit r0) r0) :=
      (Option.some.inj hl).symm
    refine ⟨?_, by simp⟩
    rw [hacc, inv_fold_qty, List.map_cons]
    rfl

/-- C3: `calculateInventoryMetrics` is sorted descending by (display)
average daily sales, and each product's row satisfies: average daily sales =
total product quantity over the count of distinct dates in the dataset
(minimum 1), rounded to 2 decimals for display; displayed standard deviation
= `round (100 √variance) / 100` with `variance` the population variance of
the per-record quantities; safety stock = `⌈1.65 σ √L⌉`; reorder point =
`⌈safetyStock + avg · L⌉`; suggested order quantity = `⌈avg · 30⌉`. -/
theorem claim_C3 (data : List SalesRecord) (L : ℕ) :
    List.Pairwise (fun a b => b.avgDailySales ≤ a.avgDailySales)
      (calculateInventoryMetrics data L) ∧
    ∀ m ∈ calculateInventoryMetrics data L,
      ∃ qs : List ℚ,
        qs = (data.filter (fun r => decide (r.Product = m.productName))).map
          (fun r => r.Quantity) ∧
        qs ≠ [] ∧
        m.avgDailySales =
          (jsRound (qs.sum / ((max ((data.map (fun r => r.Date)).dedup.length) 1 : ℕ) : ℚ)
            * 100) : ℚ) / 100 ∧
        (m.salesVariance : ℝ) =
          ((round ((100 : ℝ) * Real.sqrt ((popVariance qs : ℚ) : ℝ)) : ℤ) : ℝ) / 100 ∧
        m.safetyStock =
          ⌈(1.65 : ℝ) * Real.sqrt ((popVariance qs : ℚ) : ℝ) * Real.sqrt (L : ℝ)⌉ ∧
        m.reorderPoint =
          ⌈(m.safetyStock : ℚ) +
            qs.sum / ((max ((data.map (fun r => r.Date)).dedup.length) 1 : ℕ) : ℚ) *
              (L : ℚ)⌉ ∧
        m.suggestedOrderQty =
          ⌈qs.sum / ((max ((data.map (fun r => r.Date)).dedup.length) 1 : ℕ) : ℚ) * 30⌉ := by
  constructor
  · unfold calculateInventoryMetrics
    exact List.sorted_insertionSort
      (r := descBy (fun m : InventoryMetrics => m.avgDailySales)) _
  · intro m hm
    unfold calculateInventoryMetrics at hm
    rw [List.mem_insertionSort] at hm
    obtain ⟨e, he, hmk⟩ := List.mem_map.mp hm
    obtain ⟨hqs, hne⟩ := inv_entry_qty data e he
    subst hmk
    have hvar : (0 : ℝ) ≤ ((popVariance e.2.qty : ℚ) : ℝ) := by
      exact_mod_cast popVariance_nonneg e.2.qty
    refine ⟨e.2.qty, hqs, ?_, rfl, ?_, ?_, rfl, rfl⟩
    · rw [hqs]
      intro hemp
      exact hne (List.map_eq_nil.mp hemp)
    · -- displayed standard deviation
      have hb := sqrtRound_eq_round (10000 * popVariance e.2.qty)
      have hs : Real.sqrt ((10000 * popVariance e.2.qty : ℚ) : ℝ) =
          (100 : ℝ) * Real.sqrt ((popVariance e.2.qty : ℚ) : ℝ) := by
        push_cast
        rw [show (10000 : ℝ) * ((popVariance e.2.qty : ℚ) : ℝ) =
          (100 : ℝ) ^ 2 * ((popVariance e.2.qty : ℚ) : ℝ) by ring,
          Real.sqrt_mul (by positivity), Real.sqrt_sq (by norm_num)]
      have hcast : ((sqrtRound (10000 * popVariance e.2.qty) : ℤ) : ℝ) =
          ((round ((100 : ℝ) * Real.sqrt ((popVariance e.2.qty : ℚ) : ℝ)) : ℤ) : ℝ) := by
        rw [hb, hs]
      show ((((sqrtRound (10000 * popVariance e.2.qty) : ℕ) : ℚ) / 100 : ℚ) : ℝ) = _
      push_cast at hcast ⊢
      linarith
    · -- safety stock
      show (sqrtCeil ((1089 / 400) * popVariance e.2.qty * (L : ℚ)) : ℤ) = _
      rw [sqrtCeil_eq_ceil]
      congr 1
      have h1 : (((1089 / 400 : ℚ) * popVariance e.2.qty * (L : ℚ) : ℚ) : ℝ) =
          (1089 / 400 : ℝ) * ((popVariance e.2.qty : ℚ) : ℝ) * (L : ℝ) := by
        push_cast
        ring
      rw [h1, Real.sqrt_mul (by positivity), Real.sqrt_mul (by norm_num),
        show (1089 / 400 : ℝ) = (33 / 20 : ℝ) ^ 2 by norm_num,
        Real.sqrt_sq (by norm_num)]
      norm_num

/-- Sample data for the C3 witness: one product, quantities 2 and 4 on two
distinct dates. -/
def c3Data : List SalesRecord :=
  [{ Date := "2024-01-01", Category := "c", Product := "P", Quantity := 2,
     Amount := 100, Cost := none, Brand := "Other 其他", isGift := false },
   { Date := "2024-01-02", Category := "c", Product := "P", Quantity := 4,
     Amount := 200, Cost := none, Brand := "Other 其他", isGift := false }]

/-- The row `calculateInventoryMetrics c3Data 7` produces: average 3/day,
σ = 1, safety stock `⌈1.65 √7⌉ = 5`, reorder point 26, order quantity 90. -/
def c3Metric : InventoryMetrics :=
  { productName := "P", category := "c", avgDailySales := 3, salesVariance := 1,
    suggestedOrderQty := 90, safetyStock := 5, reorderPoint := 26 }

/-- Witness for C3 at lead time 7: the concrete row satisfies all the
formula facts. -/
theorem claim_C3_witness :
    ∃ qs : List ℚ,
      qs = (c3Data.filter (fun r => decide (r.Product = c3Metric.productName))).map
        (fun r => r.Quantity) ∧
      qs ≠ [] ∧
      c3Metric.avgDailySales =
        (jsRound (qs.sum / ((max ((c3Data.map (fun r => r.Date)).dedup.length) 1 : ℕ) : ℚ)
          * 100) : ℚ) / 100 ∧
      (c3Metric.salesVariance : ℝ) =
        ((round ((100 : ℝ) * Real.sqrt ((popVariance qs : ℚ) : ℝ)) : ℤ) : ℝ) / 100 ∧
      c3Metric.safetyStock =
        ⌈(1.65 : ℝ) * Real.sqrt ((popVariance qs : ℚ) : ℝ) * Real.sqrt ((7 : ℕ) : ℝ)⌉ ∧
      c3Metric.reorderPoint =
        ⌈(c3Metric.safetyStock : ℚ) +
          qs.sum / ((max ((c3Data.map (fun r => r.Date)).dedup.length) 1 : ℕ) : ℚ) *
            ((7 : ℕ) : ℚ)⌉ ∧
      c3Metric.suggestedOrderQty =
        ⌈qs.sum / ((max ((c3Data.map (fun r => r.Date)).dedup.length) 1 : ℕ) : ℚ) * 30⌉ :=
  (claim_C3 c3Data 7).2 c3Metric (by decide)
